import Mathlib

set_option maxHeartbeats 1000000

/-!
Verification of the Sefaria API client scripts.

This file gives a shallow embedding of the data-shaping core of the
repository: the title/link/topic simplifiers and the reference-summary
aggregator of `endpoints3+4+5demo.py`, the FastAPI bundling endpoint
`get_ref_info` of `main.py`, the library-tree normalizer of
`tree_of_life.py`, the flattener and case-insensitive lookup of
`7-library-tree/make_tree.py`, and the raw-text joining logic of
`3-get-texts/neat_text_fetch.py`.  JSON-like Python values are modelled
by the inductive `PyVal`; code that can raise is modelled in `Except`.
-/

/-- A JSON-like Python value, as handled by the scripts: `None`, booleans,
integers, strings, lists and string-keyed dicts. -/
inductive PyVal where
  | none
  | bool (b : Bool)
  | int (n : Int)
  | str (s : String)
  | list (l : List PyVal)
  | dict (kvs : List (String × PyVal))

instance : Inhabited PyVal := ⟨PyVal.none⟩

/-- First value stored under key `k` in an association list (Python dicts are
modelled with unique keys, so first match is the dict entry). -/
def lookupAssoc (kvs : List (String × PyVal)) (k : String) : Option PyVal :=
  match kvs with
  | [] => Option.none
  | p :: rest => if p.1 = k then Option.some p.2 else lookupAssoc rest k

/-- Python `k in d` for a dict node.  The scripts only apply the membership
test to dict-shaped nodes; on every other value the model answers `false`. -/
def hasKeyT (v : PyVal) (k : String) : Bool :=
  match v with
  | .dict kvs => (lookupAssoc kvs k).isSome
  | _ => false

/-- Python `d[k]` under a `k in d` guard (`PyVal.none` when absent, which the
scripts never observe because they index only after the membership test). -/
def getItemT (v : PyVal) (k : String) : PyVal :=
  match v with
  | .dict kvs => (lookupAssoc kvs k).getD PyVal.none
  | _ => PyVal.none

/-- Python `d.get(k)` restricted to dict receivers (total form, used where the
receiver is known to be a dict). -/
def getT (v : PyVal) (k : String) : PyVal :=
  getItemT v k

/-- Python `d.get(k, dflt)` restricted to dict receivers (total form). -/
def getDT (v : PyVal) (k : String) (dflt : PyVal) : PyVal :=
  match v with
  | .dict kvs => (lookupAssoc kvs k).getD dflt
  | _ => dflt

/-- Python `d.get(k, dflt)` on an arbitrary receiver: an `AttributeError` is
raised when the receiver is not a dict, exactly as `.get` does. -/
def pyGetD (v : PyVal) (k : String) (dflt : PyVal) : Except String PyVal :=
  match v with
  | .dict kvs => Except.ok ((lookupAssoc kvs k).getD dflt)
  | _ => Except.error ("AttributeError")

/-- Python `d.get(k)` on an arbitrary receiver. -/
def pyGet (v : PyVal) (k : String) : Except String PyVal :=
  pyGetD v k PyVal.none

/-- Python truthiness of a value. -/
def pyTruthy (v : PyVal) : Bool :=
  match v with
  | .none => false
  | .bool b => b
  | .int n => n != 0
  | .str s => !s.isEmpty
  | .list l => !l.isEmpty
  | .dict kvs => !kvs.isEmpty

/-- Python `a or b`. -/
def pyOr (a b : PyVal) : PyVal :=
  if pyTruthy a then a else b

mutual

/-- Executable structural size of a value (used as fuel for `pyEq`). -/
def PyVal.size : PyVal → Nat
  | .none => 1
  | .bool _ => 1
  | .int _ => 1
  | .str _ => 1
  | .list l => 1 + sizeValList l
  | .dict kvs => 1 + sizeValKVs kvs

/-- Size of a list of values. -/
def sizeValList : List PyVal → Nat
  | [] => 0
  | v :: rest => PyVal.size v + sizeValList rest

/-- Size of the entries of a dict. -/
def sizeValKVs : List (String × PyVal) → Nat
  | [] => 0
  | p :: rest => PyVal.size p.2 + sizeValKVs rest

end

/-- Fuelled Python `==` on values; the fuel is an upper bound on the size of
the left operand, so `pyEq` below never exhausts it.  `True == 1` holds, as in
Python; dict equality compares values under matching keys. -/
def pyEqFuel : Nat → PyVal → PyVal → Bool
  | 0, _, _ => false
  | _ + 1, .none, .none => true
  | _ + 1, .bool a, .bool b => a == b
  | _ + 1, .bool a, .int n => (if a then (1 : Int) else 0) == n
  | _ + 1, .int n, .bool a => n == (if a then (1 : Int) else 0)
  | _ + 1, .int a, .int b => a == b
  | _ + 1, .str a, .str b => a == b
  | n + 1, .list l1, .list l2 =>
      l1.length == l2.length && (l1.zip l2).all (fun p => pyEqFuel n p.1 p.2)
  | n + 1, .dict d1, .dict d2 =>
      d1.length == d2.length &&
        d1.all (fun p =>
          match lookupAssoc d2 p.1 with
          | Option.some w => pyEqFuel n p.2 w
          | Option.none => false)
  | _ + 1, _, _ => false

/-- Python `==` on values. -/
def pyEq (a b : PyVal) : Bool :=
  pyEqFuel (PyVal.size a) a b

/-- Dict assignment `d[k] = v` on a string-keyed association list: replace in
place when the key exists, append otherwise (insertion order preserved). -/
def setKeyA {α : Type} (kvs : List (String × α)) (k : String) (v : α) :
    List (String × α) :=
  if kvs.any (fun p => p.1 == k) then
    kvs.map (fun p => if p.1 == k then (k, v) else p)
  else kvs ++ [(k, v)]

/-- Dict read `d.get(k)` on a string-keyed association list. -/
def getKeyA {α : Type} (kvs : List (String × α)) (k : String) : Option α :=
  match kvs with
  | [] => Option.none
  | p :: rest => if p.1 = k then Option.some p.2 else getKeyA rest k

/-- Python `for x in v`: lists yield their elements, strings their characters
(as one-character strings), dicts their keys; iterating anything else raises
`TypeError`. -/
def iterElems (v : PyVal) : Except String (List PyVal) :=
  match v with
  | .list l => Except.ok l
  | .str s => Except.ok (s.data.map (fun c => PyVal.str (String.mk [c])))
  | .dict kvs => Except.ok (kvs.map (fun p => PyVal.str p.1))
  | _ => Except.error ("TypeError")

/-!  Topic simplification, from `endpoints3+4+5demo.py` (endpoint 5).  -/

/-- The fixed exclusion set `BLACKLISTED_TOPIC_IDS = {"ai"}`. -/
def BLACKLISTED_TOPIC_IDS : List String := [("ai" : String)]

/-- The collection loop of `extract_topic_slugs`: keep the string `"topic"`
values of dict items, skipping blacklisted ids, non-dict items and
non-string ids. -/
def slugCollect : List PyVal → List String
  | [] => []
  | item :: rest =>
    match item with
    | .dict kvs =>
      (match lookupAssoc kvs ("topic") with
       | Option.some (.str tid) =>
         if BLACKLISTED_TOPIC_IDS.contains tid then slugCollect rest
         else tid :: slugCollect rest
       | _ => slugCollect rest)
    | _ => slugCollect rest

/-- The dedup loop of `extract_topic_slugs` (and `fetch_topics.py`): keep the
first occurrence of each slug, tracking a `seen` set. -/
def dedupSeen (seen : List String) : List String → List String
  | [] => []
  | s :: rest =>
    if seen.contains s then dedupSeen seen rest
    else s :: dedupSeen (s :: seen) rest

/-- `extract_topic_slugs` of `endpoints3+4+5demo.py`: normalize the
ref-topic response to a flat list of topic ids, filtering the blacklist,
then dedupe preserving order.  Non-list input yields `[]`. -/
def extract_topic_slugs (raw_topics : PyVal) : List String :=
  match raw_topics with
  | .list items => dedupSeen [] (slugCollect items)
  | _ => []

/-- The per-item body of `extract_topic_objects`: `Option.none` for skipped
items, otherwise the compact `{id, title, source}` dict.  `.get` on a truthy
non-dict `dataSource`/`descriptions`/`en` raises, hence the `Except`. -/
def objOf (item : PyVal) : Except String (Option PyVal) :=
  match item with
  | .dict kvs =>
    (match lookupAssoc kvs ("topic") with
     | Option.some (.str tid) =>
       if BLACKLISTED_TOPIC_IDS.contains tid then Except.ok Option.none
       else do
         let data_source := pyOr ((lookupAssoc kvs ("dataSource")).getD PyVal.none) (.dict [])
         let source_slug ← pyGet data_source ("slug")
         let descriptions := pyOr ((lookupAssoc kvs ("descriptions")).getD PyVal.none) (.dict [])
         let en_desc0 ← pyGet descriptions ("en")
         let en_desc := pyOr en_desc0 (.dict [])
         let t1 ← pyGet en_desc ("title")
         let t2 ← pyGet en_desc ("ai_title")
         Except.ok (Option.some (.dict
           [(("id" : String), .str tid), (("title" : String), pyOr t1 t2),
            (("source" : String), source_slug)]))
     | _ => Except.ok Option.none)
  | _ => Except.ok Option.none

/-- `t.get("id")` on the compact topic dicts built by `objOf` (total form:
every such dict carries the key). -/
def getIdT (t : PyVal) : PyVal :=
  match t with
  | .dict kvs => (lookupAssoc kvs ("id")).getD PyVal.none
  | _ => PyVal.none

/-- The dedup-by-id loop of `extract_topic_objects`, with a `seen` set of id
values compared by Python `==`. -/
def dedupById (seen : List PyVal) : List PyVal → List PyVal
  | [] => []
  | t :: rest =>
    let tid := getIdT t
    if seen.any (fun s => pyEq s tid) then dedupById seen rest
    else t :: dedupById (tid :: seen) rest

/-- The collection loop of `extract_topic_objects`. -/
def objCollect : List PyVal → Except String (List PyVal)
  | [] => Except.ok []
  | item :: rest => do
    let o ← objOf item
    let tail ← objCollect rest
    match o with
    | Option.some d => Except.ok (d :: tail)
    | Option.none => Except.ok tail

/-- `extract_topic_objects` of `endpoints3+4+5demo.py`: compact topic objects
`{id, title, source}`, deduped by id preserving order.  Non-list input yields
`[]`. -/
def extract_topic_objects (raw_topics : PyVal) : Except String (List PyVal) :=
  match raw_topics with
  | .list items => do
    let topics ← objCollect items
    Except.ok (dedupById [] topics)
  | _ => Except.ok []

/-!
Text cleaning, from `clean_he_string` in `endpoints3+4+5demo.py` (identical in
`3-get-texts/neat_text_fetch.py`): `html.unescape`, then `TAG_RE.sub("", s)`
with `TAG_RE = re.compile(r"<.*?>", re.DOTALL)`, then NBSP to space, then
`" ".join(s.split())`.
-/

/-- The fragment of Python's `html5` named-charref table exercised by this
corpus (entities with and, for the legacy ones, without the semicolon);
`html.unescape` resolves names through this table. -/
def html5Entities : List (String × String) :=
  [("amp;", "&"), ("amp", "&"), ("AMP;", "&"), ("AMP", "&"),
   ("lt;", "<"), ("lt", "<"), ("LT;", "<"), ("LT", "<"),
   ("gt;", ">"), ("gt", ">"), ("GT;", ">"), ("GT", ">"),
   ("quot;", "\""), ("quot", "\""), ("QUOT;", "\""), ("QUOT", "\""),
   ("nbsp;", " "), ("nbsp", " "),
   ("thinsp;", " "),
   ("hellip;", "…"), ("mdash;", "—"), ("ndash;", "–"),
   ("rsquo;", "’"), ("lsquo;", "‘"),
   ("ldquo;", "“"), ("rdquo;", "”")]

/-- Table lookup for a named charref group. -/
def lookupEntity (g : List Char) : Option (List Char) :=
  (html5Entities.find? (fun p => p.1.data == g)).map (fun p => p.2.data)

/-- Try the prefix of length exactly `x` of the group, as `html5[s[:x]]`. -/
def entityTry (g : List Char) (x : Nat) : Option (List Char) :=
  match lookupEntity (g.take x) with
  | Option.some rep => Option.some (rep ++ g.drop x)
  | Option.none => Option.none

/-- The `for x in range(len(s)-1, 1, -1)` scan of `_replace_charref`: longest
prefix of length at least 2 that names an entity. -/
def entityScan (g : List Char) : Nat → Option (List Char)
  | 0 => Option.none
  | 1 => Option.none
  | x + 2 =>
    match entityTry g (x + 2) with
    | Option.some r => Option.some r
    | Option.none => entityScan g (x + 1)

/-- Replacement for a matched named group, as `_replace_charref`: exact table
hit, else longest named prefix, else the match is echoed unchanged. -/
def replaceNamed (group : List Char) : List Char :=
  match lookupEntity group with
  | Option.some rep => rep
  | Option.none =>
    match entityScan group (group.length - 1) with
    | Option.some r => r
    | Option.none => '&' :: group

/-- CPython's `_invalid_charrefs` replacement table for numeric charrefs. -/
def invalidCharrefs : List (Nat × String) :=
  [(0x00, "�"), (0x0d, "\u000D"), (0x80, "€"), (0x81, "\u0081"),
   (0x82, "‚"), (0x83, "ƒ"), (0x84, "„"), (0x85, "…"),
   (0x86, "†"), (0x87, "‡"), (0x88, "ˆ"), (0x89, "‰"),
   (0x8a, "Š"), (0x8b, "‹"), (0x8c, "Œ"), (0x8d, "\u008D"),
   (0x8e, "Ž"), (0x8f, "\u008F"), (0x90, "\u0090"), (0x91, "‘"),
   (0x92, "’"), (0x93, "“"), (0x94, "”"), (0x95, "•"),
   (0x96, "–"), (0x97, "—"), (0x98, "˜"), (0x99, "™"),
   (0x9a, "š"), (0x9b, "›"), (0x9c, "œ"), (0x9d, "\u009D"),
   (0x9e, "ž"), (0x9f, "Ÿ")]

/-- CPython's `_invalid_codepoints` set (dropped outright). -/
def isInvalidCodepoint (n : Nat) : Bool :=
  decide ((1 ≤ n ∧ n ≤ 8) ∨ (0xe ≤ n ∧ n ≤ 0x1f) ∨ (0x7f ≤ n ∧ n ≤ 0x9f) ∨
    (0xfdd0 ≤ n ∧ n ≤ 0xfdef) ∨ n % 0x10000 = 0xfffe ∨ n % 0x10000 = 0xffff)

/-- Replacement text for a numeric charref with value `num`. -/
def numericRep (num : Nat) : List Char :=
  match invalidCharrefs.find? (fun p => p.1 == num) with
  | Option.some p => p.2.data
  | Option.none =>
    if 0xD800 ≤ num ∧ num ≤ 0xDFFF then ['�']
    else if 0x10FFFF < num then ['�']
    else if isInvalidCodepoint num then []
    else [Char.ofNat num]

/-- A character admissible in a named charref group: the regex class
`[^\t\n\f <&#;]`. -/
def isNameChar (c : Char) : Bool :=
  if c = '\t' ∨ c = '\n' ∨ c = '\x0c' ∨ c = ' ' ∨ c = '<' ∨ c = '&' ∨
     c = '#' ∨ c = ';' then false
  else true

/-- Greedy run of up to `n` name characters, returning the run and the rest. -/
def takeName : Nat → List Char → (List Char × List Char)
  | _, [] => ([], [])
  | 0, l => ([], l)
  | n + 1, c :: rest =>
    if isNameChar c then
      let p := takeName n rest
      (c :: p.1, p.2)
    else ([], c :: rest)

/-- Consume one optional leading semicolon (the `;?` of the charref regex). -/
def dropSemi : List Char → List Char
  | ';' :: r => r
  | l => l

/-- Hexadecimal digit test. -/
def isHexDigitC (c : Char) : Bool :=
  c.isDigit ||
    (if 97 ≤ c.toNat ∧ c.toNat ≤ 102 then true else false) ||
    (if 65 ≤ c.toNat ∧ c.toNat ≤ 70 then true else false)

/-- Value of a decimal digit string. -/
def decVal (digits : List Char) : Nat :=
  digits.foldl (fun a c => a * 10 + (c.toNat - 48)) 0

/-- Value of one hexadecimal digit. -/
def hexDigitVal (c : Char) : Nat :=
  if c.isDigit then c.toNat - 48
  else if 97 ≤ c.toNat then c.toNat - 87
  else c.toNat - 55

/-- Value of a hexadecimal digit string. -/
def hexVal (digits : List Char) : Nat :=
  digits.foldl (fun a c => a * 16 + hexDigitVal c) 0

/-- Match the charref regex `&(#[0-9]+;?|#[xX][0-9a-fA-F]+;?|[^\t\n\f <&#;]{1,32};?)`
right after an ampersand: on success, the replacement text and the unconsumed
suffix. -/
def matchCharref (rest : List Char) : Option (List Char × List Char) :=
  match rest with
  | '#' :: rest2 =>
    (match rest2 with
     | c :: rest3 =>
       if c = 'x' ∨ c = 'X' then
         (if (rest3.takeWhile isHexDigitC).isEmpty then Option.none
          else Option.some (numericRep (hexVal (rest3.takeWhile isHexDigitC)),
            dropSemi (rest3.dropWhile isHexDigitC)))
       else
         (if (rest2.takeWhile Char.isDigit).isEmpty then Option.none
          else Option.some (numericRep (decVal (rest2.takeWhile Char.isDigit)),
            dropSemi (rest2.dropWhile Char.isDigit)))
     | [] => Option.none)
  | _ =>
    let p := takeName 32 rest
    if p.1.isEmpty then Option.none
    else
      match p.2 with
      | ';' :: suffix => Option.some (replaceNamed (p.1 ++ [';']), suffix)
      | suffix => Option.some (replaceNamed p.1, suffix)

/-- Fuelled left-to-right scan of `re.sub(_charref, _replace_charref, s)`;
every step consumes at least one character, so fuel `cs.length` never runs
out when started by `html_unescape`. -/
def unescapeFuel : Nat → List Char → List Char
  | 0, cs => cs
  | _, [] => []
  | n + 1, c :: rest =>
    if c = '&' then
      match matchCharref rest with
      | Option.some (rep, suffix) => rep ++ unescapeFuel n suffix
      | Option.none => c :: unescapeFuel n rest
    else c :: unescapeFuel n rest

/-- Python `html.unescape`, including its `if "&" not in s: return s` fast
path. -/
def html_unescape (cs : List Char) : List Char :=
  if cs.contains '&' then unescapeFuel cs.length cs else cs

/-- Scan past the first `>` (the lazy `.*?>` of the tag regex). -/
def dropThroughGt : List Char → Option (List Char)
  | [] => Option.none
  | c :: rest => if c = '>' then Option.some rest else dropThroughGt rest

/-- Fuelled scan of `TAG_RE.sub("", s)`: at `<`, delete through the nearest
following `>` when one exists, otherwise the `<` stays. -/
def stripTagsFuel : Nat → List Char → List Char
  | 0, cs => cs
  | _, [] => []
  | n + 1, c :: rest =>
    if c = '<' then
      match dropThroughGt rest with
      | Option.some suffix => stripTagsFuel n suffix
      | Option.none => c :: stripTagsFuel n rest
    else c :: stripTagsFuel n rest

/-- `TAG_RE.sub("", s)` on the character list. -/
def strip_tags (cs : List Char) : List Char :=
  stripTagsFuel cs.length cs

/-- NBSP to ordinary space: `s.replace(" ", " ")`. -/
def nbsp_to_space (cs : List Char) : List Char :=
  cs.map (fun c => if c = ' ' then ' ' else c)

/-- Python `str.isspace` for a character, the separator class of `str.split()`. -/
def pyIsSpace (c : Char) : Bool :=
  decide ((9 ≤ c.toNat ∧ c.toNat ≤ 13) ∨ (28 ≤ c.toNat ∧ c.toNat ≤ 32) ∨
    c.toNat = 133 ∨ c.toNat = 160 ∨ c.toNat = 0x1680 ∨
    (0x2000 ≤ c.toNat ∧ c.toNat ≤ 0x200a) ∨ c.toNat = 0x2028 ∨
    c.toNat = 0x2029 ∨ c.toNat = 0x202f ∨ c.toNat = 0x205f ∨
    c.toNat = 0x3000)

/-- Accumulating splitter behind `str.split()`: maximal runs of non-space
characters, empties dropped. -/
def splitWsAux : List Char → List Char → List (List Char)
  | cur, [] => if cur.isEmpty then [] else [cur.reverse]
  | cur, c :: rest =>
    if pyIsSpace c then
      (if cur.isEmpty then splitWsAux [] rest
       else cur.reverse :: splitWsAux [] rest)
    else splitWsAux (c :: cur) rest

/-- Python `s.split()`. -/
def pySplitWords (cs : List Char) : List (List Char) :=
  splitWsAux [] cs

/-- Python `" ".join(s.split())`. -/
def collapse_ws (cs : List Char) : List Char :=
  List.intercalate [' '] (pySplitWords cs)

/-- `clean_he_string` of `endpoints3+4+5demo.py` / `neat_text_fetch.py`:
decode HTML entities, strip tags, NBSP to space, collapse whitespace. -/
def clean_he_string (raw : String) : String :=
  String.mk (collapse_ws (nbsp_to_space (strip_tags (html_unescape raw.data))))

/-!  Library tree normalization, from `tree_of_life.py`.  -/

/-- A normalized tree node, the uniform
`title / heTitle / type / path / children` shape built by
`_make_category_node` / `_make_book_node` (titles and paths keep whatever
values the raw payload carried). -/
inductive TNode where
  | mk (title : PyVal) (heTitle : PyVal) (type : String) (path : List PyVal)
      (children : List TNode)

/-- Title of a normalized node. -/
def TNode.title : TNode → PyVal
  | .mk t _ _ _ _ => t

/-- Hebrew title of a normalized node. -/
def TNode.heTitle : TNode → PyVal
  | .mk _ h _ _ _ => h

/-- Variant tag of a normalized node (`"root"`, `"category"` or `"book"`). -/
def TNode.type : TNode → String
  | .mk _ _ ty _ _ => ty

/-- Path of a normalized node. -/
def TNode.path : TNode → List PyVal
  | .mk _ _ _ p _ => p

/-- Children of a normalized node. -/
def TNode.children : TNode → List TNode
  | .mk _ _ _ _ ch => ch

/-- `_make_category_node`. -/
def make_category_node (title heTitle : PyVal) (path : List PyVal)
    (children : List TNode) : TNode :=
  TNode.mk title heTitle ("category") path children

/-- `_make_book_node`. -/
def make_book_node (title heTitle : PyVal) (path : List PyVal) : TNode :=
  TNode.mk title heTitle ("book") path []

/-- Whether the char list `pat` starts the char list on the right. -/
def listStartsWith : List Char → List Char → Bool
  | [], _ => true
  | _ :: _, [] => false
  | c :: cs, d :: ds => c = d && listStartsWith cs ds

/-- Whether `pat` occurs contiguously inside the char list on the right. -/
def listContainsSeg (pat : List Char) : List Char → Bool
  | [] => pat.isEmpty
  | d :: ds => listStartsWith pat (d :: ds) || listContainsSeg pat ds

/-- Python substring containment `pat in s` for strings. -/
def strContainsSub (pat s : String) : Bool :=
  listContainsSeg pat.data s.data

/-- Python `x in v` on an arbitrary container: key lookup on dicts (an
unhashable probe raises), `==`-membership on lists, substring containment on
strings (a non-string probe raises), and `TypeError` on every
non-container. -/
def pyIn (x v : PyVal) : Except String Bool :=
  match v with
  | .dict kvs =>
    (match x with
     | .str k => Except.ok ((lookupAssoc kvs k).isSome)
     | .list _ => Except.error ("TypeError")
     | .dict _ => Except.error ("TypeError")
     | _ => Except.ok false)
  | .list l => Except.ok (l.any (fun e => pyEq x e))
  | .str s =>
    (match x with
     | .str pat => Except.ok (strContainsSub pat s)
     | _ => Except.error ("TypeError"))
  | _ => Except.error ("TypeError")

/-- Python `v[k]` with a string key: the stored value on a dict carrying the
key, `KeyError` on a dict without it, and `TypeError` on every other receiver
(string and list indices must be integers). -/
def pyIndex (v : PyVal) (k : String) : Except String PyVal :=
  match v with
  | .dict kvs =>
    (match lookupAssoc kvs k with
     | Option.some w => Except.ok w
     | Option.none => Except.error ("KeyError"))
  | _ => Except.error ("TypeError")

/-- Modelled from the spec: the children of a raw index node are the entries
of its `contents` list; a node whose `contents` is absent or not a list has
none. -/
def specContents (raw : PyVal) : List PyVal :=
  match getDT raw ("contents") (.list []) with
  | .list l => l
  | _ => []

/-- Every value is of positive size. -/
theorem PyVal.size_pos (v : PyVal) : 1 ≤ PyVal.size v := by
  cases v <;> simp [PyVal.size]

/-- Member of a value list is no bigger than the list. -/
theorem size_le_of_mem_list {c : PyVal} {l : List PyVal} (h : c ∈ l) :
    PyVal.size c ≤ sizeValList l := by
  induction l with
  | nil => cases h
  | cons x rest ih =>
    rcases List.mem_cons.mp h with h1 | h2
    · subst h1; simp [sizeValList]
    · have := ih h2
      simp [sizeValList]
      omega

/-- A looked-up dict value is no bigger than the entry list. -/
theorem size_le_of_lookup {kvs : List (String × PyVal)} {k : String}
    {v : PyVal} (h : lookupAssoc kvs k = Option.some v) :
    PyVal.size v ≤ sizeValKVs kvs := by
  induction kvs with
  | nil => simp [lookupAssoc] at h
  | cons p rest ih =>
    by_cases hk : p.1 = k
    · simp [lookupAssoc, hk] at h
      subst h
      simp [sizeValKVs]
    · simp [lookupAssoc, hk] at h
      have := ih h
      simp [sizeValKVs]
      omega

/-- A child taken from a node's `contents` list is strictly smaller. -/
theorem size_lt_of_mem_contents {c raw : PyVal} (h : c ∈ specContents raw) :
    PyVal.size c < PyVal.size raw := by
  unfold specContents at h
  cases raw with
  | dict kvs =>
    simp only [getDT] at h
    rcases hl : lookupAssoc kvs ("contents") with _ | v
    · rw [hl] at h
      simp at h
    · rw [hl] at h
      cases v with
      | list l =>
        simp only [Option.getD] at h
        have h1 : PyVal.size c ≤ sizeValList l := size_le_of_mem_list h
        have h2 := size_le_of_lookup hl
        simp only [PyVal.size] at h2 ⊢
        omega
      | none => simp at h
      | bool b => simp at h
      | int n => simp at h
      | str s => simp at h
      | dict d => simp at h
  | none => simp [getDT] at h
  | bool b => simp [getDT] at h
  | int n => simp [getDT] at h
  | str s => simp [getDT] at h
  | list l => simp [getDT] at h

/-- The child loop of `_normalize_node`, parameterized by the normalizer to
apply: each child normalized in order (its error propagating), `None`
children skipped. -/
def normChildrenWith (f : PyVal → List PyVal → Except String (Option TNode)) :
    List PyVal → List PyVal → Except String (List TNode)
  | [], _ => Except.ok []
  | c :: rest, path => do
    let cn ← f c path
    let tail ← normChildrenWith f rest path
    Except.ok (match cn with
      | Option.some n => n :: tail
      | Option.none => tail)

/-- Fuelled `_normalize_node` of `tree_of_life.py`.  The category membership
test comes first: a category node takes its walk-derived path and normalizes
the iteration of `raw.get("contents", []) or []` recursively; otherwise a
title-bearing node becomes a book, preferring an explicit non-empty
`categories` list over the walk-derived path; a node answering `false` to
both membership tests is `None`.  Every Python error path is kept: the
membership tests, the indexings and the `contents` iteration return
`Except.error` exactly where the script raises.  The fuel only bounds the
recursion depth (each descent enters a strictly smaller subvalue);
`normalize_node` below passes the node's own size. -/
def normalizeNodeF : Nat → PyVal → List PyVal → Except String (Option TNode) :=
  Nat.rec (motive := fun _ => PyVal → List PyVal → Except String (Option TNode))
    (fun _ _ => Except.error ("fuel"))
    (fun _ ih raw parent_path => do
      let isCat ← pyIn (.str ("category")) raw
      if isCat then do
        let title ← pyIndex raw ("category")
        let heTitle := getT raw ("heCategory")
        let path := parent_path ++ [title]
        let elems ← iterElems (pyOr (getDT raw ("contents") (.list []))
          (.list []))
        let children ← normChildrenWith ih elems path
        Except.ok (Option.some (make_category_node title heTitle path children))
      else do
        let isTitle ← pyIn (.str ("title")) raw
        if isTitle then do
          let title ← pyIndex raw ("title")
          let path :=
            match getT raw ("categories") with
            | .list cs => if cs.isEmpty then parent_path ++ [title] else cs
            | _ => parent_path ++ [title]
          Except.ok (Option.some (make_book_node title (getT raw ("heTitle"))
            path))
        else Except.ok Option.none)

/-- Unfolding of the fuelled normalizer at a positive fuel. -/
theorem normalizeNodeF_succ (fuel : Nat) (raw : PyVal)
    (parent_path : List PyVal) :
    normalizeNodeF (fuel + 1) raw parent_path = (do
      let isCat ← pyIn (.str ("category")) raw
      if isCat then do
        let title ← pyIndex raw ("category")
        let heTitle := getT raw ("heCategory")
        let path := parent_path ++ [title]
        let elems ← iterElems (pyOr (getDT raw ("contents") (.list []))
          (.list []))
        let children ← normChildrenWith (normalizeNodeF fuel) elems path
        Except.ok (Option.some (make_category_node title heTitle path children))
      else do
        let isTitle ← pyIn (.str ("title")) raw
        if isTitle then do
          let title ← pyIndex raw ("title")
          let path :=
            match getT raw ("categories") with
            | .list cs => if cs.isEmpty then parent_path ++ [title] else cs
            | _ => parent_path ++ [title]
          Except.ok (Option.some (make_book_node title (getT raw ("heTitle"))
            path))
        else Except.ok Option.none) := rfl

/-- `_normalize_node`: the fuelled normalizer at the node's own size. -/
def normalize_node (raw : PyVal) (parent_path : List PyVal) :
    Except String (Option TNode) :=
  normalizeNodeF (PyVal.size raw) raw parent_path

/-- The top-level loop of `build_library_tree`: each raw node normalized with
an empty parent path, `None` results skipped, errors propagating. -/
def normRootChildren : List PyVal → Except String (List TNode)
  | [] => Except.ok []
  | raw :: rest => do
    let n ← normalize_node raw []
    let tail ← normRootChildren rest
    Except.ok (match n with
      | Option.some node => node :: tail
      | Option.none => tail)

/-- `build_library_tree`: wrap the normalized top-level nodes under the
synthetic root; a non-list payload raises `ValueError`. -/
def build_library_tree (index_data : PyVal) : Except String TNode :=
  match index_data with
  | .list l => do
    let children ← normRootChildren l
    Except.ok (TNode.mk (.str ("root")) PyVal.none ("root") [] children)
  | _ => Except.error ("ValueError")

/-- One flattened book record of `build_flat_book_list`. -/
structure FlatBook where
  title : PyVal
  heTitle : PyVal
  path : List PyVal

/-- `build_flat_book_list`: depth-first pre-order walk collecting the book
nodes. -/
def flat_books (node : TNode) : List FlatBook :=
  match node with
  | .mk t h ty p ch =>
    (if ty = ("book") then [FlatBook.mk t h p] else []) ++
    ((ch.attach.map (fun c => flat_books c.1)).flatten)
termination_by sizeOf node
decreasing_by
  have := List.sizeOf_lt_of_mem c.2
  simp only [TNode.mk.sizeOf_spec]
  omega

/-- `build_title_lookup` of `tree_of_life.py`: both titles map to the record,
keyed by the raw (unfolded) title values, truthy titles only. -/
def build_title_lookup (flat : List FlatBook) : List (PyVal × FlatBook) :=
  flat.foldl (fun lookup b =>
    let l1 := if pyTruthy b.title then
        (if lookup.any (fun p => pyEq p.1 b.title) then
          lookup.map (fun p => if pyEq p.1 b.title then (b.title, b) else p)
        else lookup ++ [(b.title, b)])
      else lookup
    if pyTruthy b.heTitle then
      (if l1.any (fun p => pyEq p.1 b.heTitle) then
        l1.map (fun p => if pyEq p.1 b.heTitle then (b.heTitle, b) else p)
      else l1 ++ [(b.heTitle, b)])
    else l1) []

/-!  Flattener and lookup of `7-library-tree/make_tree.py`.  -/

/-- One flat book of `flatten_library_tree`:
`{title, heTitle, categories}`. -/
structure FlatBookM where
  title : PyVal
  heTitle : PyVal
  categories : List PyVal

/-- The per-node loop of `_walk`, parameterized by the walk to re-enter: a
node passing both the `category` and the `contents` membership tests (the
second evaluated only when the first holds) only recurses into its `contents`
with an extended trail; otherwise a `title`-bearing node becomes one flat
book capturing the current trail; anything else is skipped. -/
def flattenNodesWith (walk : PyVal → List PyVal → Except String (List FlatBookM)) :
    List PyVal → List PyVal → Except String (List FlatBookM)
  | [], _ => Except.ok []
  | node :: rest, trail => do
    let c1 ← pyIn (.str ("category")) node
    let cc ← if c1 then pyIn (.str ("contents")) node else Except.ok false
    let here ←
      if c1 && cc then do
        let cat ← pyIndex node ("category")
        let conts ← pyIndex node ("contents")
        walk conts (trail ++ [cat])
      else do
        let t1 ← pyIn (.str ("title")) node
        if t1 then do
          let tv ← pyIndex node ("title")
          Except.ok [FlatBookM.mk tv (getT node ("heTitle")) trail]
        else Except.ok []
    let restBooks ← flattenNodesWith walk rest trail
    Except.ok (here ++ restBooks)

/-- Fuelled `_walk` of `flatten_library_tree` (`make_tree.py`): the node-list
argument is iterated (raising `TypeError` when it is not iterable), then each
node is processed by the loop above.  All Python error paths are kept.  The
fuel only bounds the recursion depth (each descent enters a strictly smaller
subvalue); the wrappers below pass the payload's own size. -/
def flattenWalkF : Nat → PyVal → List PyVal → Except String (List FlatBookM) :=
  Nat.rec (motive := fun _ => PyVal → List PyVal →
      Except String (List FlatBookM))
    (fun _ _ => Except.error ("fuel"))
    (fun _ ih v trail => do
      let nodes ← iterElems v
      flattenNodesWith ih nodes trail)

/-- Unfolding of the fuelled walk at a positive fuel. -/
theorem flattenWalkF_succ (fuel : Nat) (v : PyVal) (trail : List PyVal) :
    flattenWalkF (fuel + 1) v trail = (do
      let nodes ← iterElems v
      flattenNodesWith (flattenWalkF fuel) nodes trail) := rfl

/-- `_walk` at its entry node-list value, with fuel the value's own size. -/
def flatten_walk (v : PyVal) (trail : List PyVal) :
    Except String (List FlatBookM) :=
  flattenWalkF (PyVal.size v) v trail

/-- `flatten_library_tree`. -/
def flatten_library_tree (tree : List PyVal) :
    Except String (List FlatBookM) :=
  flatten_walk (.list tree) []

/-- The ASCII fragment of Python `str.lower` (identity on Hebrew and on every
uncased script appearing in this corpus). -/
def charLower (c : Char) : Char :=
  if 65 ≤ c.toNat ∧ c.toNat ≤ 90 then Char.ofNat (c.toNat + 32) else c

/-- `s.lower()` on the titles of this corpus. -/
def str_lower (s : String) : String :=
  String.mk (s.data.map charLower)

/-- `build_book_lookup` of `make_tree.py`: case-insensitive keys for string
titles (`title.lower()`), raw keys for string Hebrew titles (no `.lower()`),
later insertions overwriting earlier ones. -/
def build_book_lookup (books : List FlatBookM) : List (String × FlatBookM) :=
  books.foldl (fun lookup b =>
    let l1 := match b.title with
      | .str t => setKeyA lookup (str_lower t) b
      | _ => lookup
    match b.heTitle with
      | .str h => setKeyA l1 h b
      | _ => l1) []

/-- Modelled from the spec: the pre-order sequence of
`(title, secondary title)` pairs of the title-bearing leaf nodes of a raw
index node — category-bearing nodes contribute their contents recursively,
title-bearing nodes contribute themselves, unrecognized nodes drop with
their whole subtree. -/
def specLeafBooks (raw : PyVal) : List (PyVal × PyVal) :=
  if hasKeyT raw ("category") then
    ((specContents raw).attach.map (fun c => specLeafBooks c.1)).flatten
  else if hasKeyT raw ("title") then
    [(getItemT raw ("title"), getT raw ("heTitle"))]
  else []
termination_by PyVal.size raw
decreasing_by exact size_lt_of_mem_contents c.2

/-- Dict test for a value. -/
def isDictV : PyVal → Bool
  | .dict _ => true
  | _ => false

/-- Shape a `contents` value may take under a well-formed category node: a
list, or a falsy value (which the script's `or []` replaces with `[]`); a
truthy non-list `contents` is ill-formed, since the script would iterate
it. -/
def wfContentsShape (v : PyVal) : Bool :=
  match v with
  | .list _ => true
  | _ => !pyTruthy v

/-- Well-formed raw index node: dict-shaped; a category node's `contents` is
a list (or absent or falsy) of well-formed children; a title node is a leaf
(no truthy `contents`); a node with neither field is tolerated (it is dropped
with its subtree). -/
def wfRaw (raw : PyVal) : Bool :=
  if isDictV raw then
    if hasKeyT raw ("category") then
      wfContentsShape (getDT raw ("contents") (.list [])) &&
        (specContents raw).attach.all (fun c => wfRaw c.1)
    else if hasKeyT raw ("title") then
      !pyTruthy (getDT raw ("contents") (.list []))
    else true
  else false
termination_by PyVal.size raw
decreasing_by exact size_lt_of_mem_contents c.2

/-!
Link simplification and the reference-summary aggregator, from
`endpoints3+4+5demo.py`.
-/

/-- A simplified link `{category, type, sourceRef, anchorRef}` built by
`simplify_link`. -/
structure SimplifiedLink where
  category : PyVal
  type : PyVal
  sourceRef : PyVal
  anchorRef : PyVal

/-- `simplify_link`: category and type with defaults, anchor from the link or
the caller, and the `sourceRef` resolution chain (explicit field, first ref
differing from the anchor, first ref, anchor). -/
def simplify_link (link : PyVal) (anchor_ref : PyVal) :
    Except String SimplifiedLink := do
  let category ← pyGetD link ("category") (.str ("Unknown"))
  let link_type ← pyGetD link ("type") (.str (""))
  let anchor0 ← pyGet link ("anchorRef")
  let anchor := pyOr anchor0 anchor_ref
  let refs0 ← pyGet link ("refs")
  let refsv := pyOr refs0 (.list [])
  let refs ← iterElems refsv
  let source0 ← pyGet link ("sourceRef")
  let source_ref :=
    if pyTruthy source0 then source0
    else
      match refs.filter (fun r => !(pyEq r anchor)) with
      | cand :: _ => cand
      | [] =>
        match refs with
        | r :: _ => r
        | [] => anchor
  Except.ok (SimplifiedLink.mk category link_type source_ref anchor)

/-- One step of `build_related_by_category`: ensure the category key exists
(insertion order preserved), then append the link if the per-category cap is
not yet reached. -/
def groupInsert (grouped : List (PyVal × List SimplifiedLink))
    (s : SimplifiedLink) (max_per_cat : Nat) :
    List (PyVal × List SimplifiedLink) :=
  let cat := s.category
  let g1 := if grouped.any (fun p => pyEq p.1 cat) then grouped
    else grouped ++ [(cat, [])]
  g1.map (fun p =>
    if pyEq p.1 cat then
      (p.1, if p.2.length < max_per_cat then p.2 ++ [s] else p.2)
    else p)

/-- `build_related_by_category`: group the simplified links by category,
capping each category's list. -/
def build_related_by_category (links : PyVal) (anchor_ref : PyVal)
    (max_per_cat : Nat) :
    Except String (List (PyVal × List SimplifiedLink)) := do
  let items ← iterElems links
  items.foldlM (fun grouped raw => do
    let s ← simplify_link raw anchor_ref
    Except.ok (groupInsert grouped s max_per_cat)) []

/-- Result of one upstream HTTP call: a response with status and parsed JSON
body, or a network error / timeout raised by the HTTP library. -/
inductive CallResult where
  | resp (status : Nat) (body : PyVal)
  | netError

/-- `requests` wrapper semantics of `get_text` / `get_links` /
`get_ref_topics`: `raise_for_status` turns a 4xx/5xx response into an
exception; network errors raise as well.  The raised error names the
endpoint (`step`) it came from, as the exception's URL does. -/
def raise_for_status (step : String) (r : CallResult) : Except String PyVal :=
  match r with
  | .resp st body => if st < 400 then Except.ok body else Except.error step
  | .netError => Except.error step

/-- The three upstream fetches issued by `build_ref_summary`, in call order. -/
structure Gateway3 where
  text : CallResult
  links : CallResult
  topics : CallResult

/-- The title resolution chain of `build_ref_summary`:
`title or book or indexTitle or (ref.split()[0] if ref else None)`; an empty
split of a truthy ref raises `IndexError`. -/
def titleOf (text_data : PyVal) (ref : String) : Except String PyVal := do
  let t1 ← pyGet text_data ("title")
  if pyTruthy t1 then
    Except.ok t1
  else do
    let t2 ← pyGet text_data ("book")
    if pyTruthy t2 then
      Except.ok t2
    else do
      let t3 ← pyGet text_data ("indexTitle")
      if pyTruthy t3 then
        Except.ok t3
      else if ref.isEmpty then
        Except.ok PyVal.none
      else
        match pySplitWords ref.data with
        | [] => Except.error ("IndexError")
        | w :: _ => Except.ok (PyVal.str (String.mk w))

/-- The raw-lines normalization of `build_ref_summary`: a plain string
becomes a one-element list, a list passes through unchanged, anything else
becomes the empty list. -/
def normalize_raw_lines (v : PyVal) : List PyVal :=
  match v with
  | .str s => [PyVal.str s]
  | .list l => l
  | _ => []

/-- The cleaning comprehension
`[clean_he_string(line) for line in raw_lines if line]`: falsy entries are
dropped, truthy non-strings raise `TypeError` inside `clean_he_string`. -/
def cleaned_lines (raws : List PyVal) : Except String (List String) :=
  (raws.filter pyTruthy).mapM (fun v =>
    match v with
    | .str s => Except.ok (clean_he_string s)
    | _ => Except.error ("TypeError"))

/-- The assembled summary dict of `build_ref_summary` (all keys always
present; optional metadata may be `PyVal.none`). -/
structure RefSummaryS where
  ref : PyVal
  title : PyVal
  heTitle : PyVal
  sectionNames : PyVal
  sections : PyVal
  versionTitle : PyVal
  heVersionTitle : PyVal
  next : PyVal
  prev : PyVal
  textLang : String
  textRaw : List PyVal
  textCleaned : List String
  relatedSourcesByCategory : List (PyVal × List SimplifiedLink)
  topicIds : List String
  topicObjects : List PyVal

/-- `build_ref_summary`: fetch text, links and ref-topics in order (each
failure propagating), then assemble the summary from the text metadata, the
cleaned lines, the grouped links and the simplified topics. -/
def build_ref_summary (ref : String) (lang : String)
    (max_links_per_category : Nat) (gw : Gateway3) :
    Except String RefSummaryS := do
  let text_data ← raise_for_status ("texts") gw.text
  let links_data ← raise_for_status ("links") gw.links
  let topics_raw ← raise_for_status ("ref-topic-links") gw.topics
  let title ← titleOf text_data ref
  let raw0 ← pyGetD text_data (if lang = ("he" : String) then ("he" : String)
    else ("text" : String)) (.list [])
  let raw_lines := normalize_raw_lines raw0
  let cleaned ← cleaned_lines raw_lines
  let anchor ← pyGetD text_data ("ref") (.str ref)
  let related ← build_related_by_category links_data anchor
    max_links_per_category
  let topic_ids := extract_topic_slugs topics_raw
  let topic_objs ← extract_topic_objects topics_raw
  let heTitle ← pyGet text_data ("heTitle")
  let sectionNames ← pyGet text_data ("sectionNames")
  let sections ← pyGet text_data ("sections")
  let versionTitle ← pyGet text_data ("versionTitle")
  let heVersionTitle ← pyGet text_data ("heVersionTitle")
  let nextv ← pyGet text_data ("next")
  let prevv ← pyGet text_data ("prev")
  Except.ok (RefSummaryS.mk anchor title heTitle sectionNames sections
    versionTitle heVersionTitle nextv prevv lang raw_lines cleaned related
    topic_ids topic_objs)

/-!  The `/library/ref-info` bundling endpoint of `main.py`.  -/

/-- Errors surfaced by `get_ref_info`: the `HTTPException` raised for a
non-200 required text response, or an unhandled exception (network error on
the required call, attribute errors on ill-shaped bodies). -/
inductive RefErr where
  | httpException (status : Nat) (detail : String)
  | unhandled (msg : String)

/-- The five upstream calls `get_ref_info` may issue. -/
structure GatewayMain where
  texts : CallResult
  legacy : CallResult
  links : CallResult
  topics : CallResult
  related : CallResult

/-- The bundle returned by `get_ref_info`. -/
structure RefInfo where
  ref : String
  texts : PyVal
  links : PyVal
  topics : PyVal
  related : PyVal

/-- `texts.get(k)` with `get_ref_info`'s error type. -/
def getRA (v : PyVal) (k : String) : Except RefErr PyVal :=
  match v with
  | .dict kvs => Except.ok ((lookupAssoc kvs k).getD PyVal.none)
  | _ => Except.error (RefErr.unhandled ("AttributeError"))

/-- Dict assignment `d[k] = v` on a value (identity on non-dicts, which the
code never reaches because it assigns only after successful `.get` calls). -/
def pySet (v : PyVal) (k : String) (w : PyVal) : PyVal :=
  match v with
  | .dict kvs => .dict (setKeyA kvs k w)
  | _ => v

/-- The required-text part of `get_ref_info`: `/api/v3/texts` must answer 200
(else `HTTPException`), then an empty `he`/`en` pair triggers one legacy
`/api/texts` attempt whose network failure is swallowed. -/
def texts_section (ref : String) (texts_r legacy_r : CallResult) :
    Except RefErr PyVal := do
  let body ← match texts_r with
    | .resp st b =>
      if st = 200 then Except.ok b
      else Except.error (RefErr.httpException st
        (("Failed to fetch texts for ref " : String) ++ ref))
    | .netError => Except.error (RefErr.unhandled ("httpx.HTTPError"))
  let texts := pyOr body (.dict [])
  let he ← getRA texts ("he")
  let en0 ← getRA texts ("en")
  let en1 ← getRA texts ("text")
  let en := pyOr en0 en1
  if !pyTruthy he ∧ !pyTruthy en then
    match legacy_r with
    | .netError => Except.ok texts
    | .resp lst lbody =>
      if lst = 200 then do
        let legacy := pyOr lbody (.dict [])
        let he_legacy ← getRA legacy ("he")
        let en_l0 ← getRA legacy ("text")
        let en_l1 ← getRA legacy ("en")
        let en_legacy := pyOr en_l0 en_l1
        if pyTruthy he_legacy ∨ pyTruthy en_legacy then
          Except.ok (pySet (pySet texts ("he") he_legacy) ("en") en_legacy)
        else Except.ok texts
      else Except.ok texts
  else Except.ok texts

/-- A best-effort optional sub-call with an empty-list degradation: the body
on a 200 response, `[]` on any other status or a network error. -/
def optional_list_section (c : CallResult) : PyVal :=
  match c with
  | .resp st b => if st = 200 then b else .list []
  | .netError => .list []

/-- A best-effort optional sub-call with an empty-dict degradation. -/
def optional_dict_section (c : CallResult) : PyVal :=
  match c with
  | .resp st b => if st = 200 then b else .dict []
  | .netError => .dict []

/-- `get_ref_info` of `main.py`: required texts (with legacy fallback), then
best-effort links, topics and related content. -/
def get_ref_info (ref : String) (gw : GatewayMain) : Except RefErr RefInfo := do
  let texts ← texts_section ref gw.texts gw.legacy
  Except.ok (RefInfo.mk ref texts (optional_list_section gw.links)
    (optional_list_section gw.topics) (optional_dict_section gw.related))

/-!  The raw-text joining logic of `3-get-texts/neat_text_fetch.py`.  -/

/-- The generator condition
`all(isinstance(ch, str) and len(ch) == 1 for ch in he_raw_list)`; iterating
a non-iterable raises. -/
def allSingleCharElems (v : PyVal) : Except String Bool :=
  (iterElems v).map (fun l => l.all (fun x =>
    match x with
    | .str s => s.length == 1
    | _ => false))

/-- Python `"".join(xs)` / `" ".join(xs)` require string elements. -/
def strElems (l : List PyVal) : Except String (List String) :=
  l.mapM (fun x =>
    match x with
    | .str s => Except.ok s
    | _ => Except.error ("TypeError"))

/-- The `raw_hebrew` normalization of `test_texts_api`: a truthy value whose
elements are all one-character strings is joined into one line; otherwise
lists are space-joined, strings pass through, anything else becomes `""`. -/
def raw_hebrew_of (v : PyVal) : Except String String := do
  let cond ← if pyTruthy v then allSingleCharElems v else Except.ok false
  if cond then do
    let l ← iterElems v
    let ss ← strElems l
    return String.join ss
  else
    match v with
    | .list l => do
      let ss ← strElems l
      return String.intercalate (" ") ss
    | .str s => return s
    | _ => return ("")

/-!  Lemmas and claim theorems.  -/

/-- The collection loop of `extract_topic_slugs` in
`5-get-topics/fetch_topics.py` (no blacklist in that variant): the string
`"topic"` values of the dict items, in order. -/
def rawTopicIds : List PyVal → List String
  | [] => []
  | item :: rest =>
    match item with
    | .dict kvs =>
      (match lookupAssoc kvs ("topic") with
       | Option.some (.str tid) => tid :: rawTopicIds rest
       | _ => rawTopicIds rest)
    | _ => rawTopicIds rest

/-- Raw topic ids of a response value. -/
def rawTopicIdsOf (v : PyVal) : List String :=
  match v with
  | .list items => rawTopicIds items
  | _ => []

/-- Modelled from the spec: order-preserving first-seen deduplication. -/
def specDedupFirstSeen (l : List String) : List String :=
  List.foldl (fun acc s => if acc.contains s then acc else acc ++ [s]) [] l

/-- The blacklist filter commutes into the collection loop. -/
theorem slugCollect_eq_filter (items : List PyVal) :
    slugCollect items = (rawTopicIds items).filter
      (fun s => !(BLACKLISTED_TOPIC_IDS.contains s)) := by
  induction items with
  | nil => simp [slugCollect, rawTopicIds]
  | cons item rest ih =>
    cases item with
    | dict kvs =>
      simp only [slugCollect, rawTopicIds]
      rcases lookupAssoc kvs ("topic") with _ | v
      · exact ih
      · cases v with
        | str tid =>
          by_cases hb : tid ∈ BLACKLISTED_TOPIC_IDS
          · simp [hb, ih, List.filter_cons]
          · simp [hb, ih, List.filter_cons]
        | none => exact ih
        | bool b => exact ih
        | int n => exact ih
        | list l => exact ih
        | dict d => exact ih
    | none => exact ih
    | bool b => exact ih
    | int n => exact ih
    | str s => exact ih
    | list l => exact ih

/-- The seen-set loop is the first-seen fold, for any synchronized
accumulator. -/
theorem dedupSeen_eq_foldl (l : List String) :
    ∀ seen acc, (∀ x, seen.contains x = acc.contains x) →
    acc ++ dedupSeen seen l =
      List.foldl (fun a s => if a.contains s then a else a ++ [s]) acc l := by
  induction l with
  | nil => intro seen acc _; simp [dedupSeen]
  | cons s rest ih =>
    intro seen acc hsync
    simp only [dedupSeen, List.foldl_cons]
    by_cases hs : seen.contains s = true
    · rw [if_pos hs, ← hsync s, if_pos hs]
      exact ih seen acc hsync
    · rw [if_neg hs, ← hsync s, if_neg hs]
      have step : acc ++ s :: dedupSeen (s :: seen) rest =
          (acc ++ [s]) ++ dedupSeen (s :: seen) rest := by
        simp
      rw [step]
      refine ih (s :: seen) (acc ++ [s]) ?_
      intro x
      have h := hsync x
      simp at h
      by_cases hx : x = s
      · simp [hx]
      · simp [hx, h]

/-- The seen-set loop emits nothing already seen and never repeats. -/
theorem dedupSeen_spec (l : List String) :
    ∀ seen, (∀ x ∈ dedupSeen seen l, x ∉ seen) ∧ (dedupSeen seen l).Nodup := by
  induction l with
  | nil => intro seen; simp [dedupSeen]
  | cons s rest ih =>
    intro seen
    by_cases hs : seen.contains s = true
    · simp only [dedupSeen, if_pos hs]
      exact ih seen
    · have hs' : s ∉ seen := by simpa using hs
      simp only [dedupSeen, if_neg hs]
      refine ⟨?_, ?_⟩
      · intro x hx
        rcases List.mem_cons.mp hx with h1 | h2
        · subst h1; exact hs'
        · have h3 := (ih (s :: seen)).1 x h2
          intro hc
          exact h3 (List.mem_cons_of_mem s hc)
      · refine List.nodup_cons.mpr ⟨?_, (ih (s :: seen)).2⟩
        intro hmem
        have h3 := (ih (s :: seen)).1 s hmem
        exact h3 (List.mem_cons_self s seen)

/-- C6: topic id extraction drops the excluded ids before deduplicating,
deduplicates by id preserving first-seen order (it equals the first-seen
fold over the blacklist-filtered raw ids, and its output never repeats),
skips non-dict entries and non-string ids rather than raising, and maps
the raw ids `["a","b","a","ai","c"]` (with `"ai"` excluded) to exactly
`["a","b","c"]`. -/
theorem topic_slug_extraction_dedup_first_seen :
    (∀ v : PyVal, extract_topic_slugs v =
      specDedupFirstSeen ((rawTopicIdsOf v).filter
        (fun s => !(BLACKLISTED_TOPIC_IDS.contains s))))
    ∧ (∀ v : PyVal, (extract_topic_slugs v).Nodup)
    ∧ extract_topic_slugs (.list [.dict [(("topic" : String), .str ("a"))],
        .dict [(("topic" : String), .str ("b"))],
        .dict [(("topic" : String), .str ("a"))],
        .dict [(("topic" : String), .str ("ai"))],
        .dict [(("topic" : String), .str ("c"))]]) =
      [("a" : String), ("b" : String), ("c" : String)]
    ∧ extract_topic_slugs (.list [.str ("junk"),
        .dict [(("topic" : String), .int 3)], .dict [],
        .dict [(("topic" : String), .str ("a"))]]) = [("a" : String)] := by
  refine ⟨?_, ?_, by decide, by decide⟩
  · intro v
    cases v with
    | list items =>
      simp only [extract_topic_slugs, rawTopicIdsOf]
      rw [slugCollect_eq_filter]
      have h := dedupSeen_eq_foldl
        ((rawTopicIds items).filter (fun s => !(BLACKLISTED_TOPIC_IDS.contains s)))
        [] [] (fun x => rfl)
      simpa [specDedupFirstSeen] using h
    | none => rfl
    | bool b => rfl
    | int n => rfl
    | str s => rfl
    | dict kvs => rfl
  · intro v
    cases v with
    | list items => exact (dedupSeen_spec (slugCollect items) []).2
    | none => simp [extract_topic_slugs]
    | bool b => simp [extract_topic_slugs]
    | int n => simp [extract_topic_slugs]
    | str s => simp [extract_topic_slugs]
    | dict kvs => simp [extract_topic_slugs]

/-- Feeding plain id strings back into the slug collector finds no dicts. -/
theorem slugCollect_map_str (ss : List String) :
    slugCollect (ss.map PyVal.str) = [] := by
  induction ss with
  | nil => rfl
  | cons s rest ih => simpa [slugCollect] using ih

/-- A compact topic object: a dict carrying no `"topic"` key. -/
def noTopicDict (d : PyVal) : Prop :=
  ∃ kvs, d = PyVal.dict kvs ∧ lookupAssoc kvs ("topic") = Option.none

/-- Everything `objOf` emits is a `{id, title, source}` dict without a
`"topic"` key. -/
theorem objOf_shape {item d : PyVal}
    (h : objOf item = Except.ok (Option.some d)) : noTopicDict d := by
  cases item with
  | dict kvs =>
    simp only [objOf, bind, Except.bind] at h
    repeat' split at h
    all_goals simp only [Except.ok.injEq, Option.some.injEq,
      reduceCtorEq] at h
    subst h
    exact ⟨_, rfl, rfl⟩
  | none => simp [objOf] at h
  | bool b => simp [objOf] at h
  | int n => simp [objOf] at h
  | str s => simp [objOf] at h
  | list l => simp [objOf] at h

/-- Everything the collection loop emits lacks the `"topic"` key. -/
theorem objCollect_shapes : ∀ {items topics : List PyVal},
    objCollect items = Except.ok topics → ∀ d ∈ topics, noTopicDict d := by
  intro items
  induction items with
  | nil =>
    intro topics h
    simp only [objCollect, Except.ok.injEq] at h
    subst h
    simp
  | cons item rest ih =>
    intro topics h
    simp only [objCollect, bind, Except.bind] at h
    split at h
    · simp at h
    · rename_i o heq
      split at h
      · simp at h
      · rename_i tail heq2
        cases o with
        | none =>
          simp only [Except.ok.injEq] at h
          subst h
          exact ih heq2
        | some d0 =>
          simp only [Except.ok.injEq] at h
          subst h
          intro d hd
          rcases List.mem_cons.mp hd with h3 | h4
          · subst h3
            exact objOf_shape heq
          · exact ih heq2 d h4

/-- The collection loop skips every `"topic"`-free dict. -/
theorem objCollect_noTopic {l : List PyVal}
    (hall : ∀ d ∈ l, noTopicDict d) : objCollect l = Except.ok [] := by
  induction l with
  | nil => rfl
  | cons d rest ih =>
    obtain ⟨kvs, hd, hk⟩ := hall d (List.mem_cons_self d rest)
    subst hd
    have htail := ih (fun x hx => hall x (List.mem_cons_of_mem _ hx))
    simp [objCollect, bind, Except.bind, objOf, hk, htail]

/-- Dedup only drops elements. -/
theorem dedupById_mem {d : PyVal} : ∀ {l seen : List PyVal},
    d ∈ dedupById seen l → d ∈ l := by
  intro l
  induction l with
  | nil => intro seen h; simp [dedupById] at h
  | cons t rest ih =>
    intro seen h
    simp only [dedupById] at h
    split at h
    · exact List.mem_cons_of_mem _ (ih h)
    · rcases List.mem_cons.mp h with h1 | h2
      · subst h1; exact List.mem_cons_self _ _
      · exact List.mem_cons_of_mem _ (ih h2)

/-- Re-applying `extract_topic_objects` to its own output yields `[]`. -/
theorem extract_objects_reapply {v : PyVal} {l : List PyVal}
    (h : extract_topic_objects v = Except.ok l) :
    extract_topic_objects (.list l) = Except.ok [] := by
  have hall : ∀ d ∈ l, noTopicDict d := by
    cases v with
    | list items =>
      simp only [extract_topic_objects, bind, Except.bind] at h
      split at h
      · simp at h
      · rename_i topics heq
        simp only [Except.ok.injEq] at h
        subst h
        intro d hd
        exact objCollect_shapes heq d (dedupById_mem hd)
    | none => simp only [extract_topic_objects, Except.ok.injEq] at h; subst h; simp
    | bool b => simp only [extract_topic_objects, Except.ok.injEq] at h; subst h; simp
    | int n => simp only [extract_topic_objects, Except.ok.injEq] at h; subst h; simp
    | str s => simp only [extract_topic_objects, Except.ok.injEq] at h; subst h; simp
    | dict kvs => simp only [extract_topic_objects, Except.ok.injEq] at h; subst h; simp
  simp [extract_topic_objects, bind, Except.bind, objCollect_noTopic hall,
    dedupById]

/-- Re-applying `extract_topic_slugs` to its own output yields `[]`. -/
theorem extract_slugs_reapply (v : PyVal) :
    extract_topic_slugs (.list ((extract_topic_slugs v).map PyVal.str)) = [] := by
  simp [extract_topic_slugs, slugCollect_map_str, dedupSeen]

/-- C5 counterexample: neither extraction function is idempotent under
re-application to its own output.  On the raw list `[{"topic": "a"}]` the
slug extractor returns `["a"]` but returns `[]` on that output, and the
object extractor returns one `{id, title, source}` object but returns `[]`
on that output, because the outputs carry no `"topic"` field. -/
theorem extract_reapplication_not_identity :
    extract_topic_slugs (.list [.dict [(("topic" : String), .str ("a"))]]) = [("a" : String)]
    ∧ extract_topic_slugs (.list ((extract_topic_slugs
        (.list [.dict [(("topic" : String), .str ("a"))]])).map PyVal.str)) = []
    ∧ (([] : List String) ≠ [("a" : String)])
    ∧ extract_topic_objects (.list [.dict [(("topic" : String), .str ("a"))]]) =
        Except.ok [.dict [(("id" : String), .str ("a")), (("title" : String), PyVal.none),
          (("source" : String), PyVal.none)]]
    ∧ extract_topic_objects (.list [.dict [(("id" : String), .str ("a")),
        (("title" : String), PyVal.none), (("source" : String), PyVal.none)]]) =
        Except.ok ([] : List PyVal) :=
  ⟨by decide, by decide, by decide, rfl, rfl⟩

/-- C5 amended: re-application of either extraction function to its own
output always yields the empty list (the outputs carry no `"topic"` field to
read), so `f (f xs) = f xs` holds exactly when `f xs` is empty. -/
theorem extract_reapplication_empty :
    (∀ v : PyVal, extract_topic_slugs (.list ((extract_topic_slugs v).map PyVal.str)) = [])
    ∧ (∀ (v : PyVal) (l : List PyVal), extract_topic_objects v = Except.ok l →
        extract_topic_objects (.list l) = Except.ok []) :=
  ⟨extract_slugs_reapply, fun _ _ h => extract_objects_reapply h⟩

/-- Witness for the amended C5 theorem at the raw list `[{"topic": "x"}]`. -/
theorem extract_reapplication_empty_witness :
    extract_topic_objects (.list [.dict [(("topic" : String), .str ("x"))]]) =
      Except.ok [.dict [(("id" : String), .str ("x")), (("title" : String), PyVal.none),
        (("source" : String), PyVal.none)]]
    ∧ extract_topic_objects (.list [.dict [(("id" : String), .str ("x")),
        (("title" : String), PyVal.none), (("source" : String), PyVal.none)]]) =
      Except.ok [] :=
  ⟨rfl, extract_reapplication_empty.2 (.list [.dict [(("topic" : String), .str ("x"))]]) _ rfl⟩

/-- Mapping a function that fixes every element is the identity. -/
theorem mapIdOn {α : Type} (l : List α) (f : α → α)
    (h : ∀ c ∈ l, f c = c) : l.map f = l := by
  induction l with
  | nil => rfl
  | cons c rest ih =>
    simp only [List.map_cons, h c (List.mem_cons_self c rest),
      ih (fun x hx => h x (List.mem_cons_of_mem c hx))]

/-- The tag-stripping scan is the identity on bracket-free text. -/
theorem stripTagsFuel_id : ∀ (n : Nat) (cs : List Char),
    (∀ c ∈ cs, c ≠ ('<')) → stripTagsFuel n cs = cs := by
  intro n
  induction n with
  | zero => intro cs _; cases cs <;> rfl
  | succ n ih =>
    intro cs h
    cases cs with
    | nil => rfl
    | cons c rest =>
      have hc : c ≠ ('<') := h c (List.mem_cons_self c rest)
      simp only [stripTagsFuel, if_neg hc,
        ih rest (fun x hx => h x (List.mem_cons_of_mem c hx))]

/-- `TAG_RE.sub` leaves a string without `<` unchanged. -/
theorem strip_tags_id (cs : List Char) (h : ∀ c ∈ cs, c ≠ ('<')) :
    strip_tags cs = cs :=
  stripTagsFuel_id cs.length cs h

/-- Every word produced by `str.split()` is nonempty and whitespace-free. -/
theorem splitWsAux_words : ∀ (cs cur : List Char),
    (∀ c ∈ cur, pyIsSpace c = false) →
    ∀ w ∈ splitWsAux cur cs, w ≠ [] ∧ ∀ c ∈ w, pyIsSpace c = false := by
  intro cs
  induction cs with
  | nil =>
    intro cur hcur w hw
    by_cases hc : cur.isEmpty
    · simp [splitWsAux, hc] at hw
    · simp only [splitWsAux, hc, Bool.false_eq_true, if_false,
        List.mem_singleton] at hw
      subst hw
      constructor
      · simp only [ne_eq, List.reverse_eq_nil_iff]
        intro h0
        subst h0
        simp at hc
      · intro c hcmem
        exact hcur c (List.mem_reverse.mp hcmem)
  | cons c rest ih =>
    intro cur hcur w hw
    by_cases hs : pyIsSpace c = true
    · simp only [splitWsAux, hs, if_true] at hw
      by_cases hc : cur.isEmpty
      · rw [if_pos hc] at hw
        exact ih [] (by simp) w hw
      · rw [if_neg hc] at hw
        rcases List.mem_cons.mp hw with h1 | h2
        · subst h1
          constructor
          · simp only [ne_eq, List.reverse_eq_nil_iff]
            intro h0; subst h0; simp at hc
          · intro x hx
            exact hcur x (List.mem_reverse.mp hx)
        · exact ih [] (by simp) w h2
    · simp only [splitWsAux, hs, Bool.false_eq_true, if_false] at hw
      refine ih (c :: cur) ?_ w hw
      intro x hx
      rcases List.mem_cons.mp hx with h1 | h2
      · subst h1; simpa using hs
      · exact hcur x h2

/-- `intercalate` on no words. -/
theorem intercalate_nil_custom (sep : List Char) :
    List.intercalate sep [] = [] := by
  simp [List.intercalate]

/-- `intercalate` on one word. -/
theorem intercalate_singleton_custom (sep w : List Char) :
    List.intercalate sep [w] = w := by
  simp [List.intercalate]

/-- `intercalate` peels one separator. -/
theorem intercalate_cons_cons_custom (sep a b : List Char)
    (l : List (List Char)) :
    List.intercalate sep (a :: b :: l) = a ++ sep ++ List.intercalate sep (b :: l) := by
  simp [List.intercalate, List.intersperse]

/-- The splitter accumulates a whitespace-free word. -/
theorem splitWsAux_append_word : ∀ (w cur rest : List Char),
    (∀ c ∈ w, pyIsSpace c = false) →
    splitWsAux cur (w ++ rest) = splitWsAux (w.reverse ++ cur) rest := by
  intro w
  induction w with
  | nil => intro cur rest _; simp
  | cons c w' ih =>
    intro cur rest h
    have hc : pyIsSpace c = false := h c (List.mem_cons_self c w')
    have step : splitWsAux cur ((c :: w') ++ rest) =
        splitWsAux (c :: cur) (w' ++ rest) := by
      rw [List.cons_append]
      show (if pyIsSpace c = true then _ else splitWsAux (c :: cur) (w' ++ rest)) = _
      rw [if_neg (by simp [hc])]
    rw [step, ih (c :: cur) rest (fun x hx => h x (List.mem_cons_of_mem c hx))]
    simp

/-- A space flushes the accumulated word. -/
theorem splitWsAux_space (cur rest : List Char) (h : ¬cur.isEmpty = true) :
    splitWsAux cur (' ' :: rest) = cur.reverse :: splitWsAux [] rest := by
  have hsp : pyIsSpace (' ') = true := by decide
  simp only [splitWsAux, hsp, if_true, h, if_false]
  simp [h]

/-- `str.split()` inverts `" ".join` on nonempty whitespace-free words. -/
theorem splitWs_intercalate : ∀ ws : List (List Char),
    (∀ w ∈ ws, w ≠ [] ∧ ∀ c ∈ w, pyIsSpace c = false) →
    pySplitWords (List.intercalate [(' ')] ws) = ws := by
  intro ws
  induction ws with
  | nil => intro _; simp [intercalate_nil_custom, pySplitWords, splitWsAux]
  | cons w ws' ih =>
    intro h
    obtain ⟨hw, hwf⟩ := h w (List.mem_cons_self w ws')
    cases ws' with
    | nil =>
      rw [intercalate_singleton_custom]
      unfold pySplitWords
      have h0 : splitWsAux [] (w ++ []) = splitWsAux (w.reverse ++ []) [] :=
        splitWsAux_append_word w [] [] hwf
      simp only [List.append_nil] at h0
      rw [h0]
      simp only [splitWsAux]
      rw [if_neg (by simpa using hw)]
      simp
    | cons w2 rest2 =>
      rw [intercalate_cons_cons_custom]
      unfold pySplitWords
      rw [List.append_assoc]
      rw [splitWsAux_append_word w [] (([(' ')] : List Char) ++
        List.intercalate [(' ')] (w2 :: rest2)) hwf]
      simp only [List.append_nil, List.singleton_append]
      rw [splitWsAux_space _ _ (by simpa using hw)]
      rw [List.reverse_reverse]
      have := ih (fun x hx => h x (List.mem_cons_of_mem w hx))
      unfold pySplitWords at this
      rw [this]

/-- Characters of a space-join come from the words or are the space. -/
theorem mem_intercalate_space {c : Char} : ∀ ws : List (List Char),
    c ∈ List.intercalate [(' ')] ws → c = (' ') ∨ ∃ w ∈ ws, c ∈ w := by
  intro ws
  induction ws with
  | nil =>
    intro h
    rw [intercalate_nil_custom] at h
    cases h
  | cons w ws' ih =>
    cases ws' with
    | nil =>
      intro h
      rw [intercalate_singleton_custom] at h
      exact Or.inr ⟨w, by simp, h⟩
    | cons w2 rest =>
      intro h
      rw [intercalate_cons_cons_custom] at h
      rcases List.mem_append.mp h with h1 | h2
      · rcases List.mem_append.mp h1 with h3 | h4
        · exact Or.inr ⟨w, by simp, h3⟩
        · simp at h4
          exact Or.inl h4
      · rcases ih h2 with h5 | ⟨w', hw', hc'⟩
        · exact Or.inl h5
        · exact Or.inr ⟨w', List.mem_cons_of_mem _ hw', hc'⟩

/-- Collapsed output holds only plain spaces and non-whitespace. -/
theorem collapse_ws_chars (u : List Char) :
    ∀ c ∈ collapse_ws u, c = (' ') ∨ pyIsSpace c = false := by
  intro c hc
  rcases mem_intercalate_space (pySplitWords u) hc with h | ⟨w, hw, hcw⟩
  · exact Or.inl h
  · exact Or.inr ((splitWsAux_words u [] (by simp) w hw).2 c hcw)

/-- Whitespace collapsing is idempotent. -/
theorem collapse_ws_idem (u : List Char) :
    collapse_ws (collapse_ws u) = collapse_ws u := by
  unfold collapse_ws
  have hws : ∀ w ∈ splitWsAux [] u, w ≠ [] ∧ ∀ c ∈ w, pyIsSpace c = false :=
    splitWsAux_words u [] (by simp)
  have h := splitWs_intercalate (pySplitWords u) hws
  unfold pySplitWords at h ⊢
  rw [h]

/-- A list not containing `a` has no element equal to `a`. -/
theorem contains_false_forall {l : List Char} {a : Char}
    (h : l.contains a = false) : ∀ c ∈ l, c ≠ a := by
  intro c hc he
  subst he
  simp at h
  exact h hc

/-- One cleaning pass is the identity on collapsed output free of `&` and
`<`. -/
theorem clean_idem_aux (u : List Char)
    (h1 : (collapse_ws u).contains ('&') = false)
    (h2 : (collapse_ws u).contains ('<') = false) :
    collapse_ws (nbsp_to_space (strip_tags (html_unescape (collapse_ws u)))) =
      collapse_ws u := by
  rw [html_unescape, if_neg (by simpa using h1)]
  rw [strip_tags_id _ (contains_false_forall h2)]
  rw [show nbsp_to_space (collapse_ws u) = collapse_ws u from
    mapIdOn _ _ (by
      intro c hc
      rcases collapse_ws_chars u c hc with h | h
      · subst h
        rw [if_neg (by decide)]
      · rw [if_neg (by
          intro he
          subst he
          exact absurd h (by decide))])]
  exact collapse_ws_idem u

/-- C4 counterexample: cleaning is not idempotent.  On the double-escaped
string `"&amp;amp;"` one cleaning pass yields `"&amp;"` (entity decoding
reintroduces an entity), and a second pass decodes it further to `"&"`. -/
theorem clean_not_idempotent_on_double_escape :
    clean_he_string ("&amp;amp;") = ("&amp;" : String)
    ∧ clean_he_string (clean_he_string ("&amp;amp;")) = ("&" : String)
    ∧ (("&" : String) ≠ ("&amp;" : String)) :=
  ⟨by decide, by decide, by decide⟩

/-- C4 amended: `clean_he_string` is not idempotent on all strings (entity
decoding can reintroduce entities or tags); it is idempotent on every string
whose cleaned form contains neither `&` nor `<`. -/
theorem clean_idempotent_on_entity_free_output (s : String)
    (h1 : ((clean_he_string s).data.contains ('&')) = false)
    (h2 : ((clean_he_string s).data.contains ('<')) = false) :
    clean_he_string (clean_he_string s) = clean_he_string s := by
  have key := clean_idem_aux (nbsp_to_space (strip_tags (html_unescape s.data)))
    h1 h2
  show String.mk (collapse_ws (nbsp_to_space (strip_tags (html_unescape
    (clean_he_string s).data)))) = clean_he_string s
  have hdata : (clean_he_string s).data =
      collapse_ws (nbsp_to_space (strip_tags (html_unescape s.data))) := rfl
  rw [hdata, key]
  rfl

/-- Witness for the amended C4 theorem at `"a <b>c</b>  d"`. -/
theorem clean_idempotent_on_entity_free_output_witness :
    ((clean_he_string ("a <b>c</b>  d")).data.contains ('&')) = false
    ∧ ((clean_he_string ("a <b>c</b>  d")).data.contains ('<')) = false
    ∧ clean_he_string (clean_he_string ("a <b>c</b>  d")) =
        clean_he_string ("a <b>c</b>  d") :=
  ⟨by decide, by decide,
    clean_idempotent_on_entity_free_output ("a <b>c</b>  d") (by decide) (by decide)⟩

/-- Does a record write the lookup key `k`: its folded string title or its
raw string Hebrew title equals `k`. -/
def writesKey (b : FlatBookM) (k : String) : Bool :=
  (match b.title with
   | .str t => str_lower t == k
   | _ => false) ||
  (match b.heTitle with
   | .str h => h == k
   | _ => false)

/-- The last record in traversal order writing key `k`. -/
def lastWriterOf (books : List FlatBookM) (k : String) : Option FlatBookM :=
  books.reverse.find? (fun b => writesKey b k)

/-- In-place replacement stores the new value. -/
theorem getKeyA_map_replace {α : Type} {l : List (String × α)} {k : String}
    {v : α} (h : l.any (fun p => p.1 == k) = true) :
    getKeyA (l.map (fun p => if p.1 == k then (k, v) else p)) k =
      Option.some v := by
  induction l with
  | nil => simp at h
  | cons q rest ih =>
    by_cases hq : q.1 = k
    · simp [getKeyA, hq]
    · have hq' : (q.1 == k) = false := by simpa using hq
      simp only [List.map_cons, hq', Bool.false_eq_true, if_false]
      simp only [List.any_cons, hq', Bool.false_or] at h
      simp only [getKeyA, hq, if_false]
      exact ih h

/-- Appending a fresh key stores the new value. -/
theorem getKeyA_append_new {α : Type} {l : List (String × α)} {k : String}
    {v : α} (h : l.any (fun p => p.1 == k) = false) :
    getKeyA (l ++ [(k, v)]) k = Option.some v := by
  induction l with
  | nil => simp [getKeyA]
  | cons q rest ih =>
    simp only [List.any_cons, Bool.or_eq_false_iff] at h
    have hq : ¬ q.1 = k := by simpa using h.1
    simp only [List.cons_append, getKeyA, hq, if_false]
    exact ih h.2

/-- Assignment then read of the same key. -/
theorem getKeyA_setKeyA_same {α : Type} (l : List (String × α)) (k : String)
    (v : α) : getKeyA (setKeyA l k v) k = Option.some v := by
  unfold setKeyA
  by_cases h : l.any (fun p => p.1 == k) = true
  · rw [if_pos h]
    exact getKeyA_map_replace h
  · rw [if_neg h]
    exact getKeyA_append_new (by rwa [Bool.not_eq_true] at h)

/-- In-place replacement leaves other keys alone. -/
theorem getKeyA_map_replace_other {α : Type} (l : List (String × α))
    (k k' : String) (v : α) (hne : k' ≠ k) :
    getKeyA (l.map (fun p => if p.1 == k then (k, v) else p)) k' =
      getKeyA l k' := by
  induction l with
  | nil => rfl
  | cons q rest ih =>
    by_cases hq : q.1 = k
    · have h1 : ¬ k = k' := fun he => hne he.symm
      have h2 : ¬ q.1 = k' := by rw [hq]; exact h1
      have hq2 : (q.1 == k) = true := by simpa using hq
      simp only [List.map_cons, hq2, if_true, getKeyA, h1, h2, if_false]
      exact ih
    · have hq2 : (q.1 == k) = false := by simpa using hq
      simp only [List.map_cons, hq2, Bool.false_eq_true, if_false, getKeyA]
      by_cases hq' : q.1 = k'
      · simp [hq']
      · simp only [hq', if_false]
        exact ih

/-- Appending a fresh key leaves other keys alone. -/
theorem getKeyA_append_other {α : Type} (l : List (String × α))
    (k k' : String) (v : α) (hne : k' ≠ k) :
    getKeyA (l ++ [(k, v)]) k' = getKeyA l k' := by
  induction l with
  | nil =>
    simp only [List.nil_append, getKeyA]
    rw [if_neg (fun he => hne he.symm)]
  | cons q rest ih =>
    simp only [List.cons_append, getKeyA]
    by_cases hq : q.1 = k'
    · simp [hq]
    · simp only [hq, if_false]
      exact ih

/-- Assignment leaves other keys alone. -/
theorem getKeyA_setKeyA_other {α : Type} (l : List (String × α))
    (k k' : String) (v : α) (hne : k' ≠ k) :
    getKeyA (setKeyA l k v) k' = getKeyA l k' := by
  unfold setKeyA
  by_cases h : l.any (fun p => p.1 == k) = true
  · rw [if_pos h]
    exact getKeyA_map_replace_other l k k' v hne
  · rw [if_neg h]
    exact getKeyA_append_other l k k' v hne

/-- The loop body of `build_book_lookup` for one record. -/
def bookLookupStep (lookup : List (String × FlatBookM)) (b : FlatBookM) :
    List (String × FlatBookM) :=
  let l1 := match b.title with
    | .str t => setKeyA lookup (str_lower t) b
    | _ => lookup
  match b.heTitle with
    | .str h => setKeyA l1 h b
    | _ => l1

/-- `build_book_lookup` is the fold of its loop body. -/
theorem build_book_lookup_foldl (books : List FlatBookM) :
    build_book_lookup books = List.foldl bookLookupStep [] books := rfl

/-- One loop step: the record overwrites exactly the keys it writes. -/
theorem bookLookupStep_getKey (acc : List (String × FlatBookM))
    (b : FlatBookM) (k : String) :
    getKeyA (bookLookupStep acc b) k =
      if writesKey b k = true then Option.some b else getKeyA acc k := by
  unfold bookLookupStep
  have step2 : ∀ (l1 : List (String × FlatBookM)),
      getKeyA (match b.heTitle with
        | PyVal.str h => setKeyA l1 h b
        | _ => l1) k =
      (if (match b.heTitle with
           | PyVal.str h => h == k
           | _ => false) = true
       then Option.some b else getKeyA l1 k) := by
    intro l1
    cases b.heTitle with
    | str h =>
      by_cases hk : h = k
      · subst hk
        simp [getKeyA_setKeyA_same]
      · have : (h == k) = false := by simpa using hk
        simp only [this, Bool.false_eq_true, if_false]
        exact getKeyA_setKeyA_other l1 h k b (fun he => hk he.symm)
    | none => simp
    | bool b2 => simp
    | int n => simp
    | list l => simp
    | dict d => simp
  have step1 : getKeyA (match b.title with
      | PyVal.str t => setKeyA acc (str_lower t) b
      | _ => acc) k =
      (if (match b.title with
           | PyVal.str t => str_lower t == k
           | _ => false) = true
       then Option.some b else getKeyA acc k) := by
    cases b.title with
    | str t =>
      by_cases hk : str_lower t = k
      · subst hk
        simp [getKeyA_setKeyA_same]
      · have : (str_lower t == k) = false := by simpa using hk
        simp only [this, Bool.false_eq_true, if_false]
        exact getKeyA_setKeyA_other acc (str_lower t) k b (fun he => hk he.symm)
    | none => simp
    | bool b2 => simp
    | int n => simp
    | list l => simp
    | dict d => simp
  rw [step2, step1]
  unfold writesKey
  rcases hB : (match b.heTitle with
    | PyVal.str h => h == k
    | _ => false) with _ | _
  · rcases hT : (match b.title with
      | PyVal.str t => str_lower t == k
      | _ => false) with _ | _
    · simp [hB, hT]
    · simp [hB, hT]
  · simp [hB]

/-- The built lookup answers with the last writer of the key. -/
theorem foldl_lookup_lastWriter : ∀ (books : List FlatBookM)
    (acc : List (String × FlatBookM)) (k : String),
    getKeyA (List.foldl bookLookupStep acc books) k =
      (match lastWriterOf books k with
       | Option.some w => Option.some w
       | Option.none => getKeyA acc k) := by
  intro books
  induction books with
  | nil => intro acc k; simp [lastWriterOf]
  | cons b rest ih =>
    intro acc k
    rw [List.foldl_cons, ih]
    have hrev : lastWriterOf (b :: rest) k =
        (match lastWriterOf rest k with
         | Option.some w => Option.some w
         | Option.none =>
           if writesKey b k = true then Option.some b else Option.none) := by
      unfold lastWriterOf
      rw [List.reverse_cons, List.find?_append]
      cases (rest.reverse.find? fun b2 => writesKey b2 k) with
      | some w => simp
      | none =>
        simp only [List.find?]
        cases hw : writesKey b k <;> simp [hw]
    rw [hrev]
    cases lastWriterOf rest k with
    | some w => simp
    | none =>
      simp only [bookLookupStep_getKey]
      cases hw : writesKey b k <;> simp [hw]

/-- C8 amended: `build_book_lookup` inserts every record under its
case-folded string primary title and its unfolded string secondary title,
later insertions overwriting earlier ones per key: for every key `k` the
lookup answers with the last record in traversal order whose folded primary
title or raw secondary title equals `k` (not necessarily the last record
bearing a fixed title, since distinct titles can fold to the same key). -/
theorem book_lookup_last_writer_per_key :
    (∀ (books : List FlatBookM) (k : String),
      getKeyA (build_book_lookup books) k = lastWriterOf books k)
    ∧ (∀ (books : List FlatBookM) (b : FlatBookM) (t : String),
        b ∈ books → b.title = PyVal.str t →
        (getKeyA (build_book_lookup books) (str_lower t)).isSome = true)
    ∧ (∀ (books : List FlatBookM) (b : FlatBookM) (h : String),
        b ∈ books → b.heTitle = PyVal.str h →
        (getKeyA (build_book_lookup books) h).isSome = true) := by
  have main : ∀ (books : List FlatBookM) (k : String),
      getKeyA (build_book_lookup books) k = lastWriterOf books k := by
    intro books k
    rw [build_book_lookup_foldl, foldl_lookup_lastWriter]
    cases lastWriterOf books k with
    | some w => simp
    | none => simp [getKeyA]
  refine ⟨main, ?_, ?_⟩
  · intro books b t hmem ht
    rw [main]
    unfold lastWriterOf
    rw [List.find?_isSome]
    refine ⟨b, List.mem_reverse.mpr hmem, ?_⟩
    unfold writesKey
    rw [ht]
    simp
  · intro books b h hmem hh
    rw [main]
    unfold lastWriterOf
    rw [List.find?_isSome]
    refine ⟨b, List.mem_reverse.mpr hmem, ?_⟩
    unfold writesKey
    rw [hh]
    simp

/-- Witness for the amended C8 theorem on a one-book list. -/
theorem book_lookup_last_writer_per_key_witness :
    (getKeyA (build_book_lookup
        [FlatBookM.mk (.str ("Genesis")) (.str ("בראשית")) [.str ("Tanakh")]])
      (str_lower ("Genesis"))).isSome = true :=
  book_lookup_last_writer_per_key.2.1 _ _ ("Genesis")
    (List.mem_singleton.mpr rfl) rfl

/-- A record titled `"a"`. -/
def bookTitledLowerA : FlatBookM := FlatBookM.mk (.str ("a")) PyVal.none []

/-- A record titled `"A"`, folding to the same key as `"a"`. -/
def bookTitledUpperA : FlatBookM := FlatBookM.mk (.str ("A")) PyVal.none []

/-- C8 counterexample: with records titled `"a"` then `"A"`, the lookup
under the folded key `"a"` answers the `"A"` record, although the last (and
only) record bearing title `"a"` is the first one — `lookup[caseFold t]` is
not in general the last record bearing title `t`. -/
theorem book_lookup_casefold_collision :
    getKeyA (build_book_lookup [bookTitledLowerA, bookTitledUpperA])
        (str_lower ("a")) = Option.some bookTitledUpperA
    ∧ (List.filter (fun b => pyEq b.title (.str ("a")))
        [bookTitledLowerA, bookTitledUpperA]) = [bookTitledLowerA]
    ∧ bookTitledUpperA.title ≠ bookTitledLowerA.title := by
  refine ⟨rfl, rfl, ?_⟩
  simp [bookTitledUpperA, bookTitledLowerA, FlatBookM.title]

/-- The end-to-end index payload of the claim:
`[{"category": "Tanakh", "contents": [{"title": "Genesis", ...}]}]`. -/
def tanakhPayload : List PyVal :=
  [.dict [(("category" : String), .str ("Tanakh")),
    (("contents" : String), .list [.dict [(("title" : String), .str ("Genesis")),
      (("heTitle" : String), .str ("בראשית"))]])]]

/-- C3: a book node carrying an explicit non-empty `categories` list is
normalized with exactly that list as its path; and the Tanakh/Genesis
payload flattens to exactly one record with path `["Tanakh"]` whose lookup
contains both `"genesis"` and `"בראשית"` as keys. -/
theorem explicit_categories_and_flatten_scenario :
    (∀ (raw : PyVal) (p cs : List PyVal),
      hasKeyT raw ("category") = false → hasKeyT raw ("title") = true →
      getT raw ("categories") = PyVal.list cs → cs ≠ [] →
      normalize_node raw p =
        Except.ok (Option.some (make_book_node (getItemT raw ("title"))
          (getT raw ("heTitle")) cs)))
    ∧ (∃ flat, flatten_library_tree tanakhPayload = Except.ok flat ∧
        flat = [FlatBookM.mk (.str ("Genesis")) (.str ("בראשית"))
          [.str ("Tanakh")]] ∧
        (getKeyA (build_book_lookup flat) ("genesis")).isSome = true ∧
        (getKeyA (build_book_lookup flat) ("בראשית")).isSome = true) := by
  constructor
  · intro raw p cs h1 h2 h3 h4
    obtain ⟨kvs, rfl⟩ : ∃ kvs, raw = .dict kvs := by
      cases raw with
      | dict kvs => exact ⟨kvs, rfl⟩
      | none => simp [hasKeyT] at h2
      | bool b => simp [hasKeyT] at h2
      | int n => simp [hasKeyT] at h2
      | str s => simp [hasKeyT] at h2
      | list l => simp [hasKeyT] at h2
    simp only [hasKeyT] at h1 h2
    obtain ⟨t, ht⟩ := Option.isSome_iff_exists.mp h2
    have hsz : PyVal.size (.dict kvs) = sizeValKVs kvs + 1 := by
      simp [PyVal.size]; omega
    rw [normalize_node, hsz, normalizeNodeF_succ]
    simp only [bind, Except.bind, pyIn, h1]
    simp only [Bool.false_eq_true, if_false, h2, if_true, pyIndex, ht]
    rw [h3]
    simp [List.isEmpty_iff, h4, getItemT, ht]
  · refine ⟨[FlatBookM.mk (.str ("Genesis")) (.str ("בראשית"))
      [.str ("Tanakh")]], rfl, rfl, rfl, rfl⟩

/-- Witness for the C3 theorem at a concrete book node with an explicit
category list. -/
theorem explicit_categories_and_flatten_scenario_witness :
    normalize_node (.dict [(("title" : String), .str ("Genesis")),
        (("categories" : String), .list [.str ("Tanakh"), .str ("Torah")])]) [] =
      Except.ok (Option.some (make_book_node (.str ("Genesis")) PyVal.none
        [.str ("Tanakh"), .str ("Torah")])) :=
  explicit_categories_and_flatten_scenario.1
    (.dict [(("title" : String), .str ("Genesis")),
      (("categories" : String), .list [.str ("Tanakh"), .str ("Torah")])])
    [] [.str ("Tanakh"), .str ("Torah")] (by decide) (by decide) rfl (by simp)

/-- C10 counterexample: in `flatten_library_tree` the category branch also
requires a `contents` key, so a raw node carrying both `category` and
`title` but no `contents` yields a book record from its title. -/
theorem flatten_walk_category_title_node_yields_book :
    flatten_library_tree [.dict [(("category" : String), .str ("X")),
        (("title" : String), .str ("Y"))]] =
      Except.ok [FlatBookM.mk (.str ("Y")) PyVal.none []] := rfl

/-- C10 amended: in `_normalize_node` the category membership test is applied
first, so a call on a node answering `true` to it either raises (non-dict
indexing, non-iterable contents, or a failing child) or returns a category
node — its title never produces a book record; in `flatten_library_tree` a
node answering `true` to both the `category` and the `contents` tests makes
the walk step only recurse into the contents with an extended trail, adding
no record of its own (errors propagating); in both functions no single raw
node yields both a category node and a book record. -/
theorem category_check_precedence :
    (∀ (raw : PyVal) (p : List PyVal),
      pyIn (.str ("category")) raw = Except.ok true →
      (∃ e, normalize_node raw p = Except.error e) ∨
      (∃ t h pa ch, normalize_node raw p =
        Except.ok (Option.some (TNode.mk t h ("category") pa ch))))
    ∧ (∀ (fuel : Nat) (node : PyVal) (rest trail : List PyVal),
        pyIn (.str ("category")) node = Except.ok true →
        pyIn (.str ("contents")) node = Except.ok true →
        flattenNodesWith (flattenWalkF fuel) (node :: rest) trail = do
          let cat ← pyIndex node ("category")
          let conts ← pyIndex node ("contents")
          let here ← flattenWalkF fuel conts (trail ++ [cat])
          let restBooks ← flattenNodesWith (flattenWalkF fuel) rest trail
          Except.ok (here ++ restBooks)) := by
  constructor
  · intro raw p h
    rcases hsz : PyVal.size raw with _ | m
    · exact absurd hsz (by have := PyVal.size_pos raw; omega)
    · cases hidx : pyIndex raw ("category") with
      | error e =>
        left
        refine ⟨e, ?_⟩
        rw [normalize_node, hsz, normalizeNodeF_succ]
        simp [bind, Except.bind, h, hidx]
      | ok title =>
        cases hit : iterElems (pyOr (getDT raw ("contents") (.list []))
            (.list [])) with
        | error e2 =>
          left
          refine ⟨e2, ?_⟩
          rw [normalize_node, hsz, normalizeNodeF_succ]
          simp [bind, Except.bind, h, hidx, hit]
        | ok elems =>
          cases hch : normChildrenWith (normalizeNodeF m) elems (p ++ [title]) with
          | error e3 =>
            left
            refine ⟨e3, ?_⟩
            rw [normalize_node, hsz, normalizeNodeF_succ]
            simp [bind, Except.bind, h, hidx, hit, hch]
          | ok ch =>
            right
            refine ⟨title, getT raw ("heCategory"), p ++ [title], ch, ?_⟩
            rw [normalize_node, hsz, normalizeNodeF_succ]
            simp [bind, Except.bind, h, hidx, hit, hch,
              make_category_node]
  · intro fuel node rest trail h1 h2
    simp only [flattenNodesWith, bind, Except.bind, h1, h2, if_true,
      Bool.and_self]

/-- Witness for the amended C10 theorem at concrete nodes: a node carrying
both `category` and `title` normalizes as a category (here successfully),
and a `category`+`contents` node makes the walk step recurse. -/
theorem category_check_precedence_witness :
    ((∃ e, normalize_node (.dict [(("category" : String), .str ("X")),
        (("title" : String), .str ("Y"))]) [] = Except.error e) ∨
      (∃ t h pa ch, normalize_node (.dict [(("category" : String), .str ("X")),
        (("title" : String), .str ("Y"))]) [] =
        Except.ok (Option.some (TNode.mk t h ("category") pa ch))))
    ∧ flattenNodesWith (flattenWalkF 1)
        [.dict [(("category" : String), .str ("X")),
          (("contents" : String), .list [])]] [] = (do
        let cat ← pyIndex (.dict [(("category" : String), .str ("X")),
          (("contents" : String), .list [])]) ("category")
        let conts ← pyIndex (.dict [(("category" : String), .str ("X")),
          (("contents" : String), .list [])]) ("contents")
        let here ← flattenWalkF 1 conts ([] ++ [cat])
        let restBooks ← flattenNodesWith (flattenWalkF 1) [] []
        Except.ok (here ++ restBooks)) :=
  ⟨category_check_precedence.1
      (.dict [(("category" : String), .str ("X")),
        (("title" : String), .str ("Y"))]) [] rfl,
    category_check_precedence.2 1
      (.dict [(("category" : String), .str ("X")),
        (("contents" : String), .list [])]) [] [] rfl rfl⟩

/-- Joining a list of plain strings succeeds elementwise. -/
theorem strElems_map_str : ∀ ss : List String,
    strElems (ss.map PyVal.str) = Except.ok ss := by
  intro ss
  induction ss with
  | nil => rfl
  | cons s rest ih =>
    simp only [List.map_cons, strElems, List.mapM_cons] at ih ⊢
    rw [ih]
    rfl

/-- A gateway whose text body carries `he` as a list of single-character
strings, with empty links and topics. -/
def gwSingleChars : Gateway3 :=
  ⟨.resp 200 (.dict [(("ref" : String), .str ("Genesis 1:1")),
    (("he" : String), .list [.str ("a"), .str ("b")])]),
   .resp 200 (.list []), .resp 200 (.list [])⟩

/-- C9 counterexample: `build_ref_summary` performs no single-character
join — a raw `he` list of single-character strings is cleaned line by line,
not joined into one line. -/
theorem summary_text_lines_not_joined :
    (build_ref_summary ("Genesis 1:1") ("he") 5 gwSingleChars).map
        (fun s => s.textCleaned) = Except.ok [("a" : String), ("b" : String)]
    ∧ ([("a" : String), ("b" : String)] ≠ [("ab" : String)]) :=
  ⟨rfl, by decide⟩

/-- C9 amended: in `build_ref_summary` a raw string becomes a one-element
line list, a list passes through with each element its own line, and any
other shape becomes no lines; the all-single-character join is performed by
the neat text fetch demo (`test_texts_api`), whose normalization joins a
nonempty all-single-character list into one string. -/
theorem text_normalization_shapes :
    (∀ s : String, normalize_raw_lines (.str s) = [PyVal.str s])
    ∧ (∀ l : List PyVal, normalize_raw_lines (.list l) = l)
    ∧ (∀ v : PyVal, (∀ s, v ≠ .str s) → (∀ l, v ≠ .list l) →
        normalize_raw_lines v = [])
    ∧ (∀ ss : List String, ss ≠ [] → (∀ s ∈ ss, s.length = 1) →
        raw_hebrew_of (.list (ss.map PyVal.str)) =
          Except.ok (String.join ss)) := by
  refine ⟨fun s => rfl, fun l => rfl, ?_, ?_⟩
  · intro v hs hl
    cases v with
    | str s => exact absurd rfl (hs s)
    | list l => exact absurd rfl (hl l)
    | none => rfl
    | bool b => rfl
    | int n => rfl
    | dict kvs => rfl
  · intro ss hne hlen
    have htr : pyTruthy (.list (ss.map PyVal.str)) = true := by
      simp [pyTruthy, hne]
    have hall : allSingleCharElems (.list (ss.map PyVal.str)) =
        Except.ok true := by
      simp only [allSingleCharElems, iterElems, Except.map]
      congr 1
      rw [List.all_eq_true]
      intro x hx
      rcases List.mem_map.mp hx with ⟨s, hs, rfl⟩
      simpa using hlen s hs
    simp only [raw_hebrew_of, htr, if_true, bind, Except.bind, hall]
    simp only [iterElems, strElems_map_str]
    rfl

/-- Witness for the amended C9 theorem at concrete values. -/
theorem text_normalization_shapes_witness :
    normalize_raw_lines PyVal.none = []
    ∧ raw_hebrew_of (.list ([("x" : String), ("y" : String)].map PyVal.str)) =
        Except.ok (String.join [("x" : String), ("y" : String)]) :=
  ⟨text_normalization_shapes.2.2.1 PyVal.none
      (fun _ h => PyVal.noConfusion h) (fun _ h => PyVal.noConfusion h),
   text_normalization_shapes.2.2.2 [("x" : String), ("y" : String)]
      (by simp) (by decide)⟩

/-- A gateway with a good text response and a failing links call. -/
def gwLinksDown : Gateway3 :=
  ⟨.resp 200 (.dict [(("ref" : String), .str ("Genesis 1:1")),
    (("he" : String), .list [.str ("a")])]),
   CallResult.netError, .resp 200 (.list [])⟩

/-- C1 counterexample: in `build_ref_summary` a failing links sub-call is
not degraded — the exception propagates and no summary is returned, even
though the required text fetch succeeded. -/
theorem build_ref_summary_links_failure_raises :
    build_ref_summary ("Genesis 1:1") ("he") 5 gwLinksDown =
      Except.error ("links") := rfl

/-- An optional sub-call that failed: network error or non-200 status. -/
def callFails (c : CallResult) : Prop :=
  c = CallResult.netError ∨ ∃ st b, c = CallResult.resp st b ∧ st ≠ 200

/-- C1 amended: the empty-contribution degradation holds for `get_ref_info`
(`main.py`), not for `build_ref_summary`: when the required text part
succeeds and any one of the three optional calls — links, topics or related
content — fails, `get_ref_info` still returns normally with that call's
contribution the empty list/dict and every other field exactly as with an
empty 200 response from that call; `build_ref_summary`, by contrast,
propagates a failing links call as an error naming the links step. -/
theorem optional_subcall_degradation :
    (∀ (ref : String) (gw : GatewayMain) (t : PyVal),
      texts_section ref gw.texts gw.legacy = Except.ok t →
      callFails gw.links →
      get_ref_info ref gw = Except.ok (RefInfo.mk ref t (.list [])
        (optional_list_section gw.topics) (optional_dict_section gw.related))
      ∧ get_ref_info ref gw = get_ref_info ref
          (GatewayMain.mk gw.texts gw.legacy (CallResult.resp 200 (.list []))
            gw.topics gw.related))
    ∧ (∀ (ref : String) (gw : GatewayMain) (t : PyVal),
      texts_section ref gw.texts gw.legacy = Except.ok t →
      callFails gw.topics →
      get_ref_info ref gw = Except.ok (RefInfo.mk ref t
        (optional_list_section gw.links) (.list [])
        (optional_dict_section gw.related))
      ∧ get_ref_info ref gw = get_ref_info ref
          (GatewayMain.mk gw.texts gw.legacy gw.links
            (CallResult.resp 200 (.list [])) gw.related))
    ∧ (∀ (ref : String) (gw : GatewayMain) (t : PyVal),
      texts_section ref gw.texts gw.legacy = Except.ok t →
      callFails gw.related →
      get_ref_info ref gw = Except.ok (RefInfo.mk ref t
        (optional_list_section gw.links) (optional_list_section gw.topics)
        (.dict []))
      ∧ get_ref_info ref gw = get_ref_info ref
          (GatewayMain.mk gw.texts gw.legacy gw.links gw.topics
            (CallResult.resp 200 (.dict []))))
    ∧ (∀ (ref lang : String) (n : Nat) (gw : Gateway3) (b : PyVal) (st : Nat),
        gw.text = CallResult.resp st b → st < 400 →
        (gw.links = CallResult.netError ∨
          ∃ st2 b2, gw.links = CallResult.resp st2 b2 ∧ 400 ≤ st2) →
        build_ref_summary ref lang n gw = Except.error ("links")) := by
  refine ⟨?_, ?_, ?_, ?_⟩
  · intro ref gw t ht hL
    have hsec : optional_list_section gw.links = PyVal.list [] := by
      rcases hL with h | ⟨st, b, h, hst⟩
      · rw [h]; rfl
      · rw [h]
        simp [optional_list_section, hst]
    constructor
    · simp [get_ref_info, bind, Except.bind, ht, hsec]
    · simp [get_ref_info, bind, Except.bind, ht, hsec]
      rfl
  · intro ref gw t ht hL
    have hsec : optional_list_section gw.topics = PyVal.list [] := by
      rcases hL with h | ⟨st, b, h, hst⟩
      · rw [h]; rfl
      · rw [h]
        simp [optional_list_section, hst]
    constructor
    · simp [get_ref_info, bind, Except.bind, ht, hsec]
    · simp [get_ref_info, bind, Except.bind, ht, hsec]
      rfl
  · intro ref gw t ht hL
    have hsec : optional_dict_section gw.related = PyVal.dict [] := by
      rcases hL with h | ⟨st, b, h, hst⟩
      · rw [h]; rfl
      · rw [h]
        simp [optional_dict_section, hst]
    constructor
    · simp [get_ref_info, bind, Except.bind, ht, hsec]
    · simp [get_ref_info, bind, Except.bind, ht, hsec]
      rfl
  · intro ref lang n gw b st hT hst hL
    have h1 : raise_for_status ("texts") gw.text = Except.ok b := by
      rw [hT]
      simp [raise_for_status, hst]
    have h2 : raise_for_status ("links") gw.links = Except.error ("links") := by
      rcases hL with h | ⟨st2, b2, h, hst2⟩
      · rw [h]; rfl
      · rw [h]
        simp [raise_for_status]
        omega
    simp [build_ref_summary, bind, Except.bind, h1, h2]

/-- A gateway whose three optional calls all fail while the required text
part succeeds. -/
def gwAllOptDown : GatewayMain :=
  GatewayMain.mk (.resp 200 (.dict [(("he" : String), .str ("x"))]))
    CallResult.netError CallResult.netError (.resp 500 (.list [.str ("t")]))
    (.resp 404 (.dict [(("a" : String), .int 1)]))

/-- Witness for the amended C1 theorem at concrete gateways: each of the
three optional failures degrades to an empty contribution, and a failing
links call aborts `build_ref_summary`. -/
theorem optional_subcall_degradation_witness :
    get_ref_info ("Genesis 1:1") gwAllOptDown =
      Except.ok (RefInfo.mk ("Genesis 1:1")
        (.dict [(("he" : String), .str ("x"))]) (.list []) (.list [])
        (.dict []))
    ∧ get_ref_info ("Genesis 1:1") gwAllOptDown = get_ref_info ("Genesis 1:1")
        (GatewayMain.mk gwAllOptDown.texts gwAllOptDown.legacy
          gwAllOptDown.links (CallResult.resp 200 (.list []))
          gwAllOptDown.related)
    ∧ build_ref_summary ("Genesis 1:1") ("he") 5 gwLinksDown =
        Except.error ("links") :=
  ⟨(optional_subcall_degradation.1 ("Genesis 1:1") gwAllOptDown
      (.dict [(("he" : String), .str ("x"))]) rfl (Or.inl rfl)).1,
    (optional_subcall_degradation.2.1 ("Genesis 1:1") gwAllOptDown
      (.dict [(("he" : String), .str ("x"))]) rfl
      (Or.inr ⟨500, .list [.str ("t")], rfl, by decide⟩)).2,
    optional_subcall_degradation.2.2.2 ("Genesis 1:1") ("he") 5 gwLinksDown
      (.dict [(("ref" : String), .str ("Genesis 1:1")),
        (("he" : String), .list [.str ("a")])]) 200 rfl (by decide)
      (Or.inl rfl)⟩

/-- A well-formed raw node is a dict. -/
theorem wf_isDict {raw : PyVal} (h : wfRaw raw = true) :
    ∃ kvs, raw = PyVal.dict kvs := by
  cases raw with
  | dict kvs => exact ⟨kvs, rfl⟩
  | none => rw [wfRaw] at h; simp [isDictV] at h
  | bool b => rw [wfRaw] at h; simp [isDictV] at h
  | int n => rw [wfRaw] at h; simp [isDictV] at h
  | str s => rw [wfRaw] at h; simp [isDictV] at h
  | list l => rw [wfRaw] at h; simp [isDictV] at h

/-- Under the well-formedness shape guard, iterating
`raw.get("contents", []) or []` succeeds with exactly the spec-side
children. -/
theorem iter_contents_wf {raw : PyVal}
    (h : wfContentsShape (getDT raw ("contents") (.list [])) = true) :
    iterElems (pyOr (getDT raw ("contents") (.list [])) (.list [])) =
      Except.ok (specContents raw) := by
  unfold specContents
  cases hv : getDT raw ("contents") (.list []) with
  | list l =>
    by_cases hl : pyTruthy (PyVal.list l) = true
    · simp [pyOr, hl, iterElems]
    · rw [Bool.not_eq_true] at hl
      have hnil : l = [] := by
        simpa [pyTruthy] using hl
      subst hnil
      simp [pyOr, pyTruthy, iterElems]
  | none =>
    rw [hv] at h
    simp only [wfContentsShape] at h
    rw [Bool.not_eq_true'] at h
    simp [pyOr, h, iterElems]
  | bool b =>
    rw [hv] at h
    simp only [wfContentsShape] at h
    rw [Bool.not_eq_true'] at h
    simp [pyOr, h, iterElems]
  | int n =>
    rw [hv] at h
    simp only [wfContentsShape] at h
    rw [Bool.not_eq_true'] at h
    simp [pyOr, h, iterElems]
  | str s =>
    rw [hv] at h
    simp only [wfContentsShape] at h
    rw [Bool.not_eq_true'] at h
    simp [pyOr, h, iterElems]
  | dict d =>
    rw [hv] at h
    simp only [wfContentsShape] at h
    rw [Bool.not_eq_true'] at h
    simp [pyOr, h, iterElems]

/-- A truthy non-list `contents` raises: on `{"category": "X", "contents": 1}`
both normalizers surface the iteration `TypeError` exactly as the scripts do,
and the node is not well-formed. -/
theorem nonlist_contents_raises :
    normalize_node (.dict [(("category" : String), .str ("X")),
      (("contents" : String), .int 1)]) [] = Except.error ("TypeError")
    ∧ wfRaw (.dict [(("category" : String), .str ("X")),
      (("contents" : String), .int 1)]) = false
    ∧ flatten_library_tree [.dict [(("category" : String), .str ("X")),
      (("contents" : String), .int 1)]] = Except.error ("TypeError") := by
  refine ⟨rfl, ?_, rfl⟩
  rw [wfRaw]
  simp [isDictV, hasKeyT, lookupAssoc, getDT, wfContentsShape, pyTruthy]

/-- Key lemma for C7, by induction on the fuel: on a well-formed node the
fuelled normalizer succeeds whenever the fuel covers the node's size, and
flattening the (optional) normalized node and projecting `(title, heTitle)`
yields exactly the pre-order list of title-bearing leaves computed directly
on the raw payload (`specLeafBooks`, modelled from the spec). -/
theorem flat_norm_eq : ∀ (fuel : Nat) (raw : PyVal), PyVal.size raw ≤ fuel →
    wfRaw raw = true → ∀ p,
    ∃ onode, normalizeNodeF fuel raw p = Except.ok onode ∧
      (onode.elim [] flat_books).map (fun b => (b.title, b.heTitle)) =
        specLeafBooks raw := by
  intro fuel
  induction fuel with
  | zero =>
    intro raw hle
    exact absurd hle (by have := PyVal.size_pos raw; omega)
  | succ N ih =>
    intro raw hle hwf p
    obtain ⟨kvs, rfl⟩ := wf_isDict hwf
    rw [wfRaw] at hwf
    simp only [isDictV, if_true] at hwf
    rw [normalizeNodeF_succ, specLeafBooks]
    by_cases hc : hasKeyT (.dict kvs) ("category") = true
    · rw [if_pos hc] at hwf ⊢
      rw [Bool.and_eq_true] at hwf
      obtain ⟨hshape, hall⟩ := hwf
      have hin : pyIn (.str ("category")) (.dict kvs) = Except.ok true := by
        simp only [pyIn]
        simp only [hasKeyT] at hc
        rw [hc]
      obtain ⟨t, ht⟩ : ∃ t, lookupAssoc kvs ("category") = Option.some t := by
        simp only [hasKeyT] at hc
        exact Option.isSome_iff_exists.mp hc
      have hkids : ∀ (cs : List PyVal) (path : List PyVal),
          (∀ c ∈ cs, PyVal.size c ≤ N ∧ wfRaw c = true) →
          ∃ chs, normChildrenWith (normalizeNodeF N) cs path = Except.ok chs ∧
            ((chs.map flat_books).flatten).map
              (fun b => (b.title, b.heTitle)) =
              (cs.map specLeafBooks).flatten := by
        intro cs
        induction cs with
        | nil => intro path _; exact ⟨[], rfl, by simp⟩
        | cons c rest ihl =>
          intro path hs
          obtain ⟨onode, hok, heq⟩ := ih c (hs c (List.mem_cons_self c rest)).1
            (hs c (List.mem_cons_self c rest)).2 path
          obtain ⟨chs, hok2, heq2⟩ := ihl path
            (fun x hx => hs x (List.mem_cons_of_mem c hx))
          cases onode with
          | some n =>
            refine ⟨n :: chs, ?_, ?_⟩
            · simp only [normChildrenWith, bind, Except.bind, hok, hok2]
            · simp only [List.map_cons, List.flatten_cons, List.map_append]
              dsimp only [Option.elim] at heq
              rw [heq, heq2]
          | none =>
            refine ⟨chs, ?_, ?_⟩
            · simp only [normChildrenWith, bind, Except.bind, hok, hok2]
            · dsimp only [Option.elim] at heq
              simp only [List.map_nil] at heq
              simp only [List.map_cons, List.flatten_cons, ← heq,
                List.nil_append]
              exact heq2
      have hbounds : ∀ c ∈ specContents (.dict kvs),
          PyVal.size c ≤ N ∧ wfRaw c = true := by
        intro c hcm
        constructor
        · have := size_lt_of_mem_contents hcm
          omega
        · exact List.all_eq_true.mp hall ⟨c, hcm⟩ (List.mem_attach _ _)
      obtain ⟨chs, hchs, hcheq⟩ :=
        hkids (specContents (.dict kvs)) (p ++ [t]) hbounds
      refine ⟨Option.some (make_category_node t
        (getT (.dict kvs) ("heCategory")) (p ++ [t]) chs), ?_, ?_⟩
      · simp [bind, Except.bind, hin, pyIndex, ht, iter_contents_wf hshape,
          hchs]
      · dsimp only [Option.elim, make_category_node]
        rw [flat_books]
        rw [if_neg (by decide : ¬("category" : String) = ("book" : String))]
        simp only [List.attach_map_val, List.nil_append]
        exact hcheq
    · rw [if_neg hc] at hwf ⊢
      have hinF : pyIn (.str ("category")) (.dict kvs) = Except.ok false := by
        simp only [pyIn]
        rw [Bool.not_eq_true] at hc
        simp only [hasKeyT] at hc
        rw [hc]
      by_cases ht2 : hasKeyT (.dict kvs) ("title") = true
      · rw [if_pos ht2] at hwf ⊢
        obtain ⟨t, ht⟩ : ∃ t, lookupAssoc kvs ("title") = Option.some t := by
          simp only [hasKeyT] at ht2
          exact Option.isSome_iff_exists.mp ht2
        have hinT : pyIn (.str ("title")) (.dict kvs) = Except.ok true := by
          simp [pyIn, ht]
        refine ⟨Option.some (make_book_node t (getT (.dict kvs) ("heTitle"))
          (match getT (.dict kvs) ("categories") with
           | .list cs => if cs.isEmpty then p ++ [t] else cs
           | _ => p ++ [t])), ?_, ?_⟩
        · simp [bind, Except.bind, hinF, hinT, pyIndex, ht]
        dsimp only [Option.elim, make_book_node]
        rw [flat_books]
        rw [if_pos (by decide : ("book" : String) = ("book" : String))]
        simp [getItemT, ht]
      · rw [if_neg ht2]
        have hinT : pyIn (.str ("title")) (.dict kvs) = Except.ok false := by
          simp only [pyIn]
          rw [Bool.not_eq_true] at ht2
          simp only [hasKeyT] at ht2
          rw [ht2]
        refine ⟨Option.none, ?_, ?_⟩
        · simp [bind, Except.bind, hinF, hinT]
        · dsimp only [Option.elim]
          simp

/-- The top-level loop on a well-formed payload: every node normalizes, and
the collected children flatten to the concatenated spec leaves. -/
theorem flat_norm_root : ∀ (l : List PyVal), (∀ r ∈ l, wfRaw r = true) →
    ∃ chs, normRootChildren l = Except.ok chs ∧
      ((chs.map flat_books).flatten).map (fun b => (b.title, b.heTitle)) =
        (l.map specLeafBooks).flatten := by
  intro l
  induction l with
  | nil => intro _; exact ⟨[], rfl, by simp⟩
  | cons r rest ihl =>
    intro h
    obtain ⟨onode, hok, heq⟩ := flat_norm_eq (PyVal.size r) r (Nat.le_refl _)
      (h r (List.mem_cons_self r rest)) []
    obtain ⟨chs, hok2, heq2⟩ := ihl
      (fun x hx => h x (List.mem_cons_of_mem r hx))
    cases onode with
    | some n =>
      refine ⟨n :: chs, ?_, ?_⟩
      · simp only [normRootChildren, normalize_node, bind, Except.bind, hok,
          hok2]
      · simp only [List.map_cons, List.flatten_cons, List.map_append]
        dsimp only [Option.elim] at heq
        rw [heq, heq2]
    | none =>
      refine ⟨chs, ?_, ?_⟩
      · simp only [normRootChildren, normalize_node, bind, Except.bind, hok,
          hok2]
      · dsimp only [Option.elim] at heq
        simp only [List.map_nil] at heq
        simp only [List.map_cons, List.flatten_cons, ← heq, List.nil_append]
        exact heq2

/-- C7: for every well-formed raw index payload, `flatten(buildTree(payload))`
contains exactly one record per title-bearing leaf of the input, in stable
depth-first pre-order (the projected `(title, heTitle)` list equals the
pre-order leaf list read off the raw payload); and a raw node whose two
membership tests both answer `false` normalizes to `None` without raising, so
it and its whole subtree contribute zero records. -/
theorem flatten_build_tree_preorder_leaves :
    (∀ (l : List PyVal), (∀ r ∈ l, wfRaw r = true) →
      ∃ tree, build_library_tree (.list l) = Except.ok tree ∧
        (flat_books tree).map (fun b => (b.title, b.heTitle)) =
          (l.map specLeafBooks).flatten)
    ∧ (∀ (raw : PyVal) (p : List PyVal),
        pyIn (.str ("category")) raw = Except.ok false →
        pyIn (.str ("title")) raw = Except.ok false →
        normalize_node raw p = Except.ok Option.none) := by
  constructor
  · intro l hwf
    obtain ⟨chs, hok, heq⟩ := flat_norm_root l hwf
    refine ⟨TNode.mk (.str ("root")) PyVal.none ("root") [] chs, ?_, ?_⟩
    · simp only [build_library_tree, bind, Except.bind, hok]
    · rw [flat_books]
      rw [if_neg (by decide : ¬("root" : String) = ("book" : String))]
      simp only [List.attach_map_val, List.nil_append]
      exact heq
  · intro raw p h1 h2
    rw [normalize_node]
    rcases hsz : PyVal.size raw with _ | m
    · exact absurd hsz (by have := PyVal.size_pos raw; omega)
    · rw [normalizeNodeF_succ]
      simp [bind, Except.bind, h1, h2]

/-- A small well-formed demo payload: one category with a book child and a
child missing both category and title (which must contribute nothing). -/
def wfDemoPayload : List PyVal :=
  [.dict [(("category" : String), .str ("A")),
    (("contents" : String), .list [.dict [(("title" : String), .str ("B"))],
      .dict [(("weird" : String), .int 1)]])]]

/-- Witness for C7 at `wfDemoPayload`: the build succeeds and the flat list
projects to the pre-order leaves. -/
theorem flatten_build_tree_preorder_leaves_witness :
    ∃ tree, build_library_tree (.list wfDemoPayload) = Except.ok tree ∧
      (flat_books tree).map (fun b => (b.title, b.heTitle)) =
        (wfDemoPayload.map specLeafBooks).flatten :=
  flatten_build_tree_preorder_leaves.1 wfDemoPayload (by
    intro r hr
    rw [List.mem_singleton.mp hr]
    have hb : wfRaw (.dict [(("title" : String), .str ("B"))]) = true := by
      rw [wfRaw]
      simp [isDictV, hasKeyT, lookupAssoc, getDT, pyTruthy]
    have hw : wfRaw (.dict [(("weird" : String), .int 1)]) = true := by
      rw [wfRaw]
      simp [isDictV, hasKeyT, lookupAssoc, getDT]
    rw [wfRaw]
    simp only [isDictV, hasKeyT, lookupAssoc, specContents, getDT,
      wfContentsShape, if_true]
    simp [List.attach, List.attachWith, List.pmap, hb, hw, pyTruthy])
